import Mathlib

/-!
# Boids flocking simulation (`main.go`): shallow embedding

The Go program works on `float64`.  The embedding is generic in an ordered
field `α` of scalars, and `math.Sqrt` (a library function) is passed as the
parameter `sqrt`; the theorems that depend on square roots are stated for
`α = ℝ` and `sqrt = Real.sqrt`, i.e. over exact real arithmetic.

A `[]*Boid` population is a `List (Boid α)` of distinct boids; in-place
mutation through the pointers becomes explicit state passing.  A run-time
panic (slice bounds out of range) is the result `none`.
-/

namespace Boids

/-! ## Config parameters -/

/-- Width of the window, `const windowWidth = 1280`. -/
def windowWidth : Nat := 1280

/-- Height of the window, `const windowHeight = 760`. -/
def windowHeight : Nat := 760

/-- Size of the population created by `main`, `const numBoids = 50`. -/
def numBoids : Nat := 50

/-- Proximity threshold of `nearbyRule`, `const nearbyDistance = 25`. -/
def nearbyDistance : Nat := 25

/-- Number of neighbours returned by `nearestNeighbours`, `const numNeighbours = 7`. -/
def numNeighbours : Nat := 7

/-! ## Structs and helper methods -/

/-- General struct used for both the velocity and the position of a boid. -/
@[ext]
structure Vec2 (α : Type) where
  X : α
  Y : α
  deriving DecidableEq, Repr

/-- The struct representing one bird (boid). -/
@[ext]
structure Boid (α : Type) where
  position : Vec2 α
  velocity : Vec2 α
  deriving DecidableEq, Repr

section Embedding

variable {α : Type} [LinearOrderedField α]

/-- Method `Add`: component-wise addition. -/
def Vec2.Add (a b : Vec2 α) : Vec2 α :=
  { X := a.X + b.X, Y := a.Y + b.Y }

/-- Method `Subtract`: the vector operation `a - b`. -/
def Vec2.Subtract (a b : Vec2 α) : Vec2 α :=
  { X := a.X - b.X, Y := a.Y - b.Y }

/-- Method `Divide`: both components divided by the scalar `b`. -/
def Vec2.Divide (a : Vec2 α) (b : α) : Vec2 α :=
  { X := a.X / b, Y := a.Y / b }

/-- Method `Multiply`: both components multiplied by the scalar `b`. -/
def Vec2.Multiply (a : Vec2 α) (b : α) : Vec2 α :=
  { X := a.X * b, Y := a.Y * b }

/-- Method `Dist`: Euclidean distance between the two vectors,
`math.Sqrt(X*X + Y*Y)` with `X = a.X - b.X` and `Y = a.Y - b.Y`. -/
def Vec2.Dist (sqrt : α → α) (a b : Vec2 α) : α :=
  let X := a.X - b.X
  let Y := a.Y - b.Y
  sqrt (X * X + Y * Y)

/-- Method `Length`: the distance from the origin, `a.Dist(Vec2{0, 0})`. -/
def Vec2.Length (sqrt : α → α) (a : Vec2 α) : α :=
  a.Dist sqrt { X := 0, Y := 0 }

/-- The zero value of the struct `Boid`, which `make([]Boid, n)` fills a slice with. -/
def Boid.zero : Boid α :=
  { position := { X := 0, Y := 0 }, velocity := { X := 0, Y := 0 } }

/-! ## `sort.SliceStable` and slicing -/

/-- Insertion of `x` in front of an already sorted list: `x` moves right past
the elements that are strictly less than it and stops at the first one that is
not, so it stays in front of the elements it is tied with. -/
def insertStable {β : Type} (less : β → β → Bool) (x : β) : List β → List β
  | [] => [x]
  | y :: ys => if less y x then y :: insertStable less x ys else x :: y :: ys

/-- Model of the library function `sort.SliceStable(slice, less)`: the stable
sort of the list by `less`, elements that are not ordered by `less` keeping
their original order.  (For a strict weak order `less` the result of a stable
sort does not depend on the algorithm; it is computed here by insertion from
the right.) -/
def sliceStable {β : Type} (less : β → β → Bool) (l : List β) : List β :=
  l.foldr (insertStable less) []

/-- The slice expression `s[0:n]`.  Go panics when `n` exceeds the capacity of
`s`; the slices this is used on have their capacity equal to their length when
they are shorter than `n` (`append` doubles the capacity 1, 2, 3 of a full
slice of 32-byte elements to exactly 2, 4, 6), so the bound is the length. -/
def sliceTo {β : Type} (s : List β) (n : Nat) : Option (List β) :=
  if n ≤ s.length then some (s.take n) else none

/-! ## Neighbour selection -/

/-- The comparison function given to `sort.SliceStable` in `nearestNeighbours`:
`boid.position.Dist(x.position) < boid.position.Dist(y.position)`. -/
def closerTo (sqrt : α → α) (boid x y : Boid α) : Bool :=
  decide (boid.position.Dist sqrt x.position < boid.position.Dist sqrt y.position)

/-- Method `nearestNeighbours`.  The slice `neighbours` is created by
`make([]Boid, len(boids))`, that is with `len(boids)` zero boids, a copy of
every boid of the population is appended to it, it is sorted stably by distance
to `boid.position`, and `neighbours[0:numNeighbours]` is returned. -/
def nearestNeighbours (sqrt : α → α) (boid : Boid α) (boids : List (Boid α)) :
    Option (List (Boid α)) :=
  let neighbours : List (Boid α) := List.replicate boids.length Boid.zero
  let neighbours := boids.foldl (fun acc otherBoid => acc ++ [otherBoid]) neighbours
  let neighbours := sliceStable (closerTo sqrt boid) neighbours
  sliceTo neighbours numNeighbours

/-! ## The three rules -/

/-- Function `centreOfMassRule`: the mean position of `boids`, minus the position
of the current boid, divided by 100. -/
def centreOfMassRule (boids : List (Boid α)) (currentBoid : Boid α) : Vec2 α :=
  let total : Vec2 α :=
    boids.foldl (fun (total : Vec2 α) boid => total.Add boid.position) { X := 0, Y := 0 }
  ((total.Divide (boids.length : α)).Subtract currentBoid.position).Divide 100

/-- Function `nearbyRule`: for every boid nearer than `nearbyDistance`, a nudge
`currentBoid.position - boid.position` away from it. -/
def nearbyRule (sqrt : α → α) (boids : List (Boid α)) (currentBoid : Boid α) : Vec2 α :=
  boids.foldl
    (fun (Direction : Vec2 α) boid =>
      if boid.position.Dist sqrt currentBoid.position < (nearbyDistance : α) then
        Direction.Add (currentBoid.position.Subtract boid.position)
      else Direction)
    { X := 0, Y := 0 }

/-- Function `velocityRule`: the mean velocity of `boids`, minus the velocity of
the current boid, divided by 20. -/
def velocityRule (boids : List (Boid α)) (curBoid : Boid α) : Vec2 α :=
  let total : Vec2 α :=
    boids.foldl (fun (total : Vec2 α) boid => total.Add boid.velocity) { X := 0, Y := 0 }
  let total : Vec2 α := total.Divide (boids.length : α)
  (total.Subtract curBoid.velocity).Divide 20

/-! ## Velocity cap and window -/

/-- Function `limitVelocity`: a velocity longer than `velocityMagnitude = 5.0` is
divided by its length and multiplied by 5. -/
def limitVelocity (sqrt : α → α) (boid : Boid α) : Boid α :=
  let velocityMagnitude : α := 5
  let vecLength := boid.velocity.Length sqrt
  if vecLength > velocityMagnitude then
    { boid with velocity := (boid.velocity.Divide vecLength).Multiply velocityMagnitude }
  else boid

/-- Function `stayInWindow`: first the `X` coordinate, then the `Y` coordinate. -/
def stayInWindow (boid : Boid α) : Boid α :=
  let boid : Boid α :=
    if boid.position.X < 0 then
      { boid with position := { boid.position with X := (windowWidth : α) + boid.position.X } }
    else if boid.position.X > (windowWidth : α) then
      { boid with position := { boid.position with X := (windowWidth : α) - boid.position.X } }
    else boid
  if boid.position.Y < 0 then
    { boid with position := { boid.position with Y := (windowHeight : α) + boid.position.Y } }
  else if boid.position.Y > (windowHeight : α) then
    { boid with position := { boid.position with Y := (windowHeight : α) - boid.position.Y } }
  else boid

/-! ## One tick -/

/-- Body of the loop of `updateBoidPositions` for the boid `currentBoid`, the
population being in the state `boids`: the new state of that boid. -/
def updateBoid (sqrt : α → α) (boids : List (Boid α)) (currentBoid : Boid α) :
    Option (Boid α) :=
  match nearestNeighbours sqrt currentBoid boids with
  | none => none
  | some neighbours =>
    let v1 := centreOfMassRule neighbours currentBoid
    let v2 := nearbyRule sqrt neighbours currentBoid
    let v3 := velocityRule neighbours currentBoid
    let currentBoid : Boid α :=
      { currentBoid with velocity := ((currentBoid.velocity.Add v1).Add v2).Add v3 }
    let currentBoid := limitVelocity sqrt currentBoid
    let currentBoid : Boid α :=
      { currentBoid with position := currentBoid.position.Add currentBoid.velocity }
    some (stayInWindow currentBoid)

/-- One iteration of the loop of `updateBoidPositions`: the boid at index `i` is
updated in place, the others are left as they are. -/
def updateBoidAt (sqrt : α → α) (boids : List (Boid α)) (i : Nat) : Option (List (Boid α)) :=
  match boids[i]? with
  | none => some boids
  | some currentBoid =>
    match updateBoid sqrt boids currentBoid with
    | none => none
    | some newBoid => some (boids.set i newBoid)

/-- The loop `for i := range boids` from index `i` on, `n` iterations left. -/
def updateFrom (sqrt : α → α) : Nat → Nat → List (Boid α) → Option (List (Boid α))
  | 0, _, boids => some boids
  | n + 1, i, boids =>
    match updateBoidAt sqrt boids i with
    | none => none
    | some boids1 => updateFrom sqrt n (i + 1) boids1

/-- Function `updateBoidPositions`: one tick, the boids being updated one after
the other in index order. -/
def updateBoidPositions (sqrt : α → α) (boids : List (Boid α)) : Option (List (Boid α)) :=
  updateFrom sqrt boids.length 0 boids

/-- The loop of `main`: `n` rounds of `updateBoidPositions` on the population
(drawing and the pause between the rounds change nothing in it). -/
def runTicks (sqrt : α → α) : Nat → List (Boid α) → Option (List (Boid α))
  | 0, boids => some boids
  | n + 1, boids =>
    match updateBoidPositions sqrt boids with
    | none => none
    | some boids1 => runTicks sqrt n boids1

/-! ## Initial population -/

/-- Function `randomBoid`.  The generator of `math/rand` (a library) is the
parameter `Intn`: from the state of the generator and the bound `k` of the call
`rand.Intn(k)`, the integer drawn and the next state.  The four draws are made
in source order; `rand.Intn(10) - 5` is computed on integers and then converted. -/
def randomBoid {σ : Type} (Intn : σ → Nat → Nat × σ) (s : σ) : Boid α × σ :=
  let drawX := Intn s windowWidth
  let drawY := Intn drawX.2 windowHeight
  let initialPosition : Vec2 α := { X := ((drawX.1 : Nat) : α), Y := ((drawY.1 : Nat) : α) }
  let drawVX := Intn drawY.2 10
  let drawVY := Intn drawVX.2 10
  let vInitX : Int := (drawVX.1 : Int) - 5
  let vInitY : Int := (drawVY.1 : Int) - 5
  let initialVelocity : Vec2 α := { X := (vInitX : α), Y := (vInitY : α) }
  ({ position := initialPosition, velocity := initialVelocity }, drawVY.2)

/-- Function `initializeBoids`: `numBoids` boids drawn one after the other,
returned in the order of the draws, with the state of the generator afterwards. -/
def initializeBoids {σ : Type} (Intn : σ → Nat → Nat × σ) : Nat → σ → List (Boid α) × σ
  | 0, s => ([], s)
  | numBoids + 1, s =>
    let first : Boid α × σ := randomBoid Intn s
    let rest := initializeBoids Intn numBoids first.2
    (first.1 :: rest.1, rest.2)

/-! ## The divisions of a tick, with the divisor checked -/

/-- What a computation that can fail in two ways ends with. -/
inductive Outcome (β : Type) where
  | ok (value : β)
  | slicePanic
  | divisionByZero

/-- The outcome of a computation whose only failure is the slice panic. -/
def Outcome.ofOption {β : Type} : Option β → Outcome β
  | some value => Outcome.ok value
  | none => Outcome.slicePanic

/-- Method `Divide` with the divisor checked: `none` for a zero divisor. -/
def Vec2.DivideChecked (a : Vec2 α) (b : α) : Option (Vec2 α) :=
  if b = 0 then none else some (a.Divide b)

/-- Function `centreOfMassRule` with its two divisions checked. -/
def centreOfMassRuleChecked (boids : List (Boid α)) (currentBoid : Boid α) :
    Option (Vec2 α) :=
  let total : Vec2 α :=
    boids.foldl (fun (total : Vec2 α) boid => total.Add boid.position) { X := 0, Y := 0 }
  match total.DivideChecked (boids.length : α) with
  | none => none
  | some mean => (mean.Subtract currentBoid.position).DivideChecked 100

/-- Function `velocityRule` with its two divisions checked. -/
def velocityRuleChecked (boids : List (Boid α)) (curBoid : Boid α) : Option (Vec2 α) :=
  let total : Vec2 α :=
    boids.foldl (fun (total : Vec2 α) boid => total.Add boid.velocity) { X := 0, Y := 0 }
  match total.DivideChecked (boids.length : α) with
  | none => none
  | some total => (total.Subtract curBoid.velocity).DivideChecked 20

/-- Function `limitVelocity` with its division checked. -/
def limitVelocityChecked (sqrt : α → α) (boid : Boid α) : Option (Boid α) :=
  let velocityMagnitude : α := 5
  let vecLength := boid.velocity.Length sqrt
  if vecLength > velocityMagnitude then
    match boid.velocity.DivideChecked vecLength with
    | none => none
    | some scaled => some { boid with velocity := scaled.Multiply velocityMagnitude }
  else some boid

/-- Body of the loop of `updateBoidPositions` with every division checked. -/
def updateBoidChecked (sqrt : α → α) (boids : List (Boid α)) (currentBoid : Boid α) :
    Outcome (Boid α) :=
  match nearestNeighbours sqrt currentBoid boids with
  | none => Outcome.slicePanic
  | some neighbours =>
    match centreOfMassRuleChecked neighbours currentBoid with
    | none => Outcome.divisionByZero
    | some v1 =>
      let v2 := nearbyRule sqrt neighbours currentBoid
      match velocityRuleChecked neighbours currentBoid with
      | none => Outcome.divisionByZero
      | some v3 =>
        let currentBoid : Boid α :=
          { currentBoid with velocity := ((currentBoid.velocity.Add v1).Add v2).Add v3 }
        match limitVelocityChecked sqrt currentBoid with
        | none => Outcome.divisionByZero
        | some currentBoid =>
          let currentBoid : Boid α :=
            { currentBoid with position := currentBoid.position.Add currentBoid.velocity }
          Outcome.ok (stayInWindow currentBoid)

/-! ## Auxiliary definitions used in the statements -/

/-- Component-wise sum of a list of vectors. -/
def sumVec (vs : List (Vec2 α)) : Vec2 α :=
  { X := (vs.map Vec2.X).sum, Y := (vs.map Vec2.Y).sum }

/-- Arithmetic mean of a list of vectors: the centroid of a list of positions,
the mean velocity of a list of velocities. -/
def meanVec (vs : List (Vec2 α)) : Vec2 α :=
  { X := (vs.map Vec2.X).sum / (vs.length : α), Y := (vs.map Vec2.Y).sum / (vs.length : α) }

/-- The bounds of the position invariant of the tick: at most 5 outside the
window to the left and above, not outside to the right and below. -/
def withinMargin (b : Boid α) : Prop :=
  -5 ≤ b.position.X ∧ b.position.X ≤ 1280 ∧ -5 ≤ b.position.Y ∧ b.position.Y ≤ 760

/-- Squared Euclidean distance, the argument `X*X + Y*Y` of the square root in `Dist`. -/
def Vec2.distSq (a b : Vec2 α) : α :=
  (a.X - b.X) * (a.X - b.X) + (a.Y - b.Y) * (a.Y - b.Y)

/-- The neighbour selector as the specification words it: the distance from the
target to every member of the population, a stable sort of the population by
ascending distance (ties in population order), the first `numNeighbours` of it. -/
def specNearestNeighbours (sqrt : α → α) (target : Boid α) (population : List (Boid α)) :
    List (Boid α) :=
  (population.mergeSort
    (fun x y =>
      decide (target.position.Dist sqrt x.position ≤ target.position.Dist sqrt y.position))).take
    numNeighbours

end Embedding

/-! ## Concrete inputs -/

/-- A boid that left the window through the right edge: it was at `x = 1279`
and moved by its velocity `(4, 0)`. -/
def rightEdgeBoid : Boid ℝ :=
  { position := { X := 1283, Y := 100 }, velocity := { X := 4, Y := 0 } }

/-- A population of three boids, fewer than `nearestNeighbours` can slice. -/
def threeBoids : List (Boid ℝ) :=
  [ { position := { X := 300, Y := 300 }, velocity := { X := 1, Y := 0 } },
    { position := { X := 400, Y := 300 }, velocity := { X := 0, Y := 1 } },
    { position := { X := 300, Y := 400 }, velocity := { X := 0, Y := 0 } } ]

/-- First boid of `tiePop`. -/
def tieFirst : Boid ℝ :=
  { position := { X := 300, Y := 300 }, velocity := { X := 1, Y := 0 } }

/-- Second boid of `tiePop`: at the same place as the first one, flying elsewhere. -/
def tieSecond : Boid ℝ :=
  { position := { X := 300, Y := 300 }, velocity := { X := 0, Y := 1 } }

/-- Third boid of `tiePop`. -/
def tieThird : Boid ℝ :=
  { position := { X := 400, Y := 300 }, velocity := { X := 0, Y := 0 } }

/-- Fourth boid of `tiePop`. -/
def tieFourth : Boid ℝ :=
  { position := { X := 300, Y := 400 }, velocity := { X := 0, Y := 0 } }

/-- A population of four boids, the first two of them at the same position. -/
def tiePop : List (Boid ℝ) := [tieFirst, tieSecond, tieThird, tieFourth]

/-- A boid in the corner `(0, 0)` of the window, flying to the right. -/
def originBoid : Boid ℝ :=
  { position := { X := 0, Y := 0 }, velocity := { X := 1, Y := 0 } }

/-- A population of seven boids on the upper edge of the window, all of them
flying to the right, the first one in the corner `(0, 0)`. -/
def originPop : List (Boid ℝ) :=
  [ originBoid,
    { position := { X := 10, Y := 0 }, velocity := { X := 1, Y := 0 } },
    { position := { X := 20, Y := 0 }, velocity := { X := 1, Y := 0 } },
    { position := { X := 30, Y := 0 }, velocity := { X := 1, Y := 0 } },
    { position := { X := 40, Y := 0 }, velocity := { X := 1, Y := 0 } },
    { position := { X := 50, Y := 0 }, velocity := { X := 1, Y := 0 } },
    { position := { X := 60, Y := 0 }, velocity := { X := 1, Y := 0 } } ]

/-- First boid of `gridPop`, at rest. -/
def gridFirst : Boid ℝ :=
  { position := { X := 300, Y := 300 }, velocity := { X := 0, Y := 0 } }

/-- Second boid of `gridPop`, at rest. -/
def gridSecond : Boid ℝ :=
  { position := { X := 400, Y := 300 }, velocity := { X := 0, Y := 0 } }

/-- Third boid of `gridPop`, at rest. -/
def gridThird : Boid ℝ :=
  { position := { X := 300, Y := 400 }, velocity := { X := 0, Y := 0 } }

/-- Fourth boid of `gridPop`, at rest. -/
def gridFourth : Boid ℝ :=
  { position := { X := 400, Y := 400 }, velocity := { X := 0, Y := 0 } }

/-- A population of four boids at rest on the corners of a square of side 100. -/
def gridPop : List (Boid ℝ) := [gridFirst, gridSecond, gridThird, gridFourth]

/-- The state of `gridFirst` after its update in the tick on `gridPop`. -/
def gridFirstNew : Boid ℝ :=
  { position := { X := 299, Y := 299 }, velocity := { X := -1, Y := -1 } }

/-- The update of `gridSecond` evaluated against `gridPop` as it stood at the
start of the tick. -/
def gridSecondSnapshot : Boid ℝ :=
  { position := { X := 398, Y := 299 }, velocity := { X := -2, Y := -1 } }

/-- The agent at the origin of the two-agent scenario, at rest. -/
def pairFirst : Boid ℝ :=
  { position := { X := 0, Y := 0 }, velocity := { X := 0, Y := 0 } }

/-- The agent at `(10, 0)` of the two-agent scenario, at rest. -/
def pairSecond : Boid ℝ :=
  { position := { X := 10, Y := 0 }, velocity := { X := 0, Y := 0 } }

/-- A generator for `rand.Intn`: its state is a counter, the draw is the
counter modulo the bound. -/
def counterSource (s : Nat) (k : Nat) : Nat × Nat := (s % k, s + 1)

/-- An agent half-way between the two agents of the two-agent scenario. -/
def pairMiddle : Boid ℝ :=
  { position := { X := 5, Y := 0 }, velocity := { X := 0, Y := 0 } }

/-! ## Vectors and square roots -/

section VectorLemmas

theorem Dist_eq_sqrt_distSq (a b : Vec2 ℝ) :
    a.Dist Real.sqrt b = Real.sqrt (a.distSq b) := rfl

theorem distSq_nonneg (a b : Vec2 ℝ) : 0 ≤ a.distSq b := by
  unfold Vec2.distSq
  nlinarith [mul_self_nonneg (a.X - b.X), mul_self_nonneg (a.Y - b.Y)]

theorem Dist_nonneg (a b : Vec2 ℝ) : 0 ≤ a.Dist Real.sqrt b := by
  rw [Dist_eq_sqrt_distSq]
  exact Real.sqrt_nonneg _

theorem Dist_self (a : Vec2 ℝ) : a.Dist Real.sqrt a = 0 := by
  simp [Dist_eq_sqrt_distSq, Vec2.distSq]

theorem Dist_lt_Dist_iff (p a b : Vec2 ℝ) :
    p.Dist Real.sqrt a < p.Dist Real.sqrt b ↔ p.distSq a < p.distSq b := by
  rw [Dist_eq_sqrt_distSq, Dist_eq_sqrt_distSq]
  exact Real.sqrt_lt_sqrt_iff (distSq_nonneg p a)

theorem Dist_le_Dist_iff (p a b : Vec2 ℝ) :
    p.Dist Real.sqrt a ≤ p.Dist Real.sqrt b ↔ p.distSq a ≤ p.distSq b := by
  rw [Dist_eq_sqrt_distSq, Dist_eq_sqrt_distSq]
  exact Real.sqrt_le_sqrt_iff (distSq_nonneg p b)

theorem Dist_eq_zero_iff (a b : Vec2 ℝ) : a.Dist Real.sqrt b = 0 ↔ a = b := by
  rw [Dist_eq_sqrt_distSq, Real.sqrt_eq_zero (distSq_nonneg a b)]
  constructor
  · intro h
    unfold Vec2.distSq at h
    have hx : (a.X - b.X) * (a.X - b.X) = 0 := by
      nlinarith [mul_self_nonneg (a.X - b.X), mul_self_nonneg (a.Y - b.Y)]
    have hy : (a.Y - b.Y) * (a.Y - b.Y) = 0 := by
      nlinarith [mul_self_nonneg (a.X - b.X), mul_self_nonneg (a.Y - b.Y)]
    ext
    · exact sub_eq_zero.mp (mul_self_eq_zero.mp hx)
    · exact sub_eq_zero.mp (mul_self_eq_zero.mp hy)
  · rintro rfl
    simp [Vec2.distSq]

theorem Length_eq_sqrt (v : Vec2 ℝ) :
    v.Length Real.sqrt = Real.sqrt (v.X * v.X + v.Y * v.Y) := by
  simp [Vec2.Length, Vec2.Dist]

theorem Length_nonneg (v : Vec2 ℝ) : 0 ≤ v.Length Real.sqrt := by
  rw [Length_eq_sqrt]
  exact Real.sqrt_nonneg _

theorem Length_Multiply (v : Vec2 ℝ) {k : ℝ} (hk : 0 ≤ k) :
    (v.Multiply k).Length Real.sqrt = k * v.Length Real.sqrt := by
  rw [Length_eq_sqrt, Length_eq_sqrt]
  have h : (v.Multiply k).X * (v.Multiply k).X + (v.Multiply k).Y * (v.Multiply k).Y
      = (k * k) * (v.X * v.X + v.Y * v.Y) := by
    simp only [Vec2.Multiply]
    ring
  rw [h, Real.sqrt_mul (mul_self_nonneg k), Real.sqrt_mul_self hk]

theorem Divide_Multiply (v : Vec2 ℝ) (l k : ℝ) :
    (v.Divide l).Multiply k = v.Multiply (k / l) := by
  simp only [Vec2.Divide, Vec2.Multiply]
  congr 1 <;> ring

theorem Dist_lt_nearbyDistance (a b : Vec2 ℝ) :
    a.Dist Real.sqrt b < (nearbyDistance : ℝ) ↔ a.distSq b < 625 := by
  rw [Dist_eq_sqrt_distSq, Real.sqrt_lt' (by norm_num [nearbyDistance])]
  norm_num [nearbyDistance]

theorem Length_gt_five (v : Vec2 ℝ) :
    v.Length Real.sqrt > 5 ↔ 25 < v.X * v.X + v.Y * v.Y := by
  rw [Length_eq_sqrt, gt_iff_lt, Real.lt_sqrt (by norm_num)]
  norm_num

end VectorLemmas

/-! ## `stayInWindow` -/

section Window

variable {α : Type} [LinearOrderedField α]

theorem stayInWindow_velocity (b : Boid α) : (stayInWindow b).velocity = b.velocity := by
  unfold stayInWindow
  dsimp only
  split_ifs <;> rfl

theorem stayInWindow_X (b : Boid α) :
    (stayInWindow b).position.X =
      if b.position.X < 0 then (windowWidth : α) + b.position.X
      else if b.position.X > (windowWidth : α) then (windowWidth : α) - b.position.X
      else b.position.X := by
  unfold stayInWindow
  dsimp only
  split_ifs <;> rfl

theorem stayInWindow_Y (b : Boid α) :
    (stayInWindow b).position.Y =
      if b.position.Y < 0 then (windowHeight : α) + b.position.Y
      else if b.position.Y > (windowHeight : α) then (windowHeight : α) - b.position.Y
      else b.position.Y := by
  unfold stayInWindow
  dsimp only
  split_ifs <;> rfl

/-- C8: `stayInWindow` leaves the velocity unchanged and maps each coordinate `c`
on its own, with `S = 1280` for `X` and `S = 760` for `Y`: to `S + c` if `c < 0`,
to `S - c` if `c > S`, and to `c` itself if `0 ≤ c ≤ S`.  In particular `X = -3`
becomes `1277` and `X = 1283` becomes `-3`. -/
theorem stayInWindow_coordinates (b : Boid α) :
    (stayInWindow b).velocity = b.velocity ∧
    (b.position.X < 0 → (stayInWindow b).position.X = 1280 + b.position.X) ∧
    (1280 < b.position.X → (stayInWindow b).position.X = 1280 - b.position.X) ∧
    (0 ≤ b.position.X → b.position.X ≤ 1280 →
      (stayInWindow b).position.X = b.position.X) ∧
    (b.position.Y < 0 → (stayInWindow b).position.Y = 760 + b.position.Y) ∧
    (760 < b.position.Y → (stayInWindow b).position.Y = 760 - b.position.Y) ∧
    (0 ≤ b.position.Y → b.position.Y ≤ 760 →
      (stayInWindow b).position.Y = b.position.Y) ∧
    (b.position.X = -3 → (stayInWindow b).position.X = 1277) ∧
    (b.position.X = 1283 → (stayInWindow b).position.X = -3) := by
  have hW : ((windowWidth : ℕ) : α) = 1280 := by simp [windowWidth]
  have hH : ((windowHeight : ℕ) : α) = 760 := by simp [windowHeight]
  refine ⟨stayInWindow_velocity b, ?_, ?_, ?_, ?_, ?_, ?_, ?_, ?_⟩
  · intro h
    rw [stayInWindow_X, hW, if_pos h]
  · intro h
    have h0 : ¬ b.position.X < 0 := by linarith
    rw [stayInWindow_X, hW, if_neg h0, if_pos h]
  · intro h0 h1
    rw [stayInWindow_X, hW, if_neg (not_lt.mpr h0), if_neg (not_lt.mpr h1)]
  · intro h
    rw [stayInWindow_Y, hH, if_pos h]
  · intro h
    have h0 : ¬ b.position.Y < 0 := by linarith
    rw [stayInWindow_Y, hH, if_neg h0, if_pos h]
  · intro h0 h1
    rw [stayInWindow_Y, hH, if_neg (not_lt.mpr h0), if_neg (not_lt.mpr h1)]
  · intro h
    rw [stayInWindow_X, hW, h]
    norm_num
  · intro h
    rw [stayInWindow_X, hW, h]
    norm_num

/-- C9 (the code at the failing input): the boid that left the window through
the right edge, at `X = 1283`, is put at `X = -3` by `stayInWindow`, which is
not inside `[0, 1280]`: it does not pop out on the other side. -/
theorem stayInWindow_right_edge_outside :
    rightEdgeBoid.position.X = 1283 ∧
    (stayInWindow rightEdgeBoid).position.X = -3 ∧
    ¬ (0 ≤ (stayInWindow rightEdgeBoid).position.X ∧
        (stayInWindow rightEdgeBoid).position.X ≤ 1280) := by
  have h : (stayInWindow rightEdgeBoid).position.X = -3 := by
    rw [stayInWindow_X]
    norm_num [rightEdgeBoid, windowWidth]
  refine ⟨rfl, h, ?_⟩
  rw [h]
  norm_num

end Window

/-! ## `sort.SliceStable` -/

section Sorting

variable {β : Type}

theorem foldl_append_singleton (l init : List β) :
    l.foldl (fun acc x => acc ++ [x]) init = init ++ l := by
  induction l generalizing init with
  | nil => simp
  | cons x xs ih => simp [ih]

theorem insertStable_perm (less : β → β → Bool) (x : β) (l : List β) :
    (insertStable less x l).Perm (x :: l) := by
  induction l with
  | nil => exact List.Perm.refl _
  | cons y ys ih =>
    unfold insertStable
    split_ifs
    · exact (List.Perm.cons y ih).trans (List.Perm.swap x y ys)
    · exact List.Perm.refl _

theorem sliceStable_cons (less : β → β → Bool) (x : β) (l : List β) :
    sliceStable less (x :: l) = insertStable less x (sliceStable less l) := rfl

theorem sliceStable_perm (less : β → β → Bool) (l : List β) :
    (sliceStable less l).Perm l := by
  induction l with
  | nil => exact List.Perm.refl _
  | cons x xs ih =>
    rw [sliceStable_cons]
    exact (insertStable_perm less x _).trans (List.Perm.cons x ih)

theorem sliceStable_length (less : β → β → Bool) (l : List β) :
    (sliceStable less l).length = l.length :=
  (sliceStable_perm less l).length_eq

theorem mem_sliceStable (less : β → β → Bool) (l : List β) (x : β) :
    x ∈ sliceStable less l ↔ x ∈ l :=
  (sliceStable_perm less l).mem_iff

theorem insertStable_sorted {γ : Type} [LinearOrder γ] (key : β → γ) (less : β → β → Bool)
    (hless : ∀ a b, less a b = true ↔ key a < key b) (x : β) (l : List β)
    (hl : l.Pairwise (fun a b => key a ≤ key b)) :
    (insertStable less x l).Pairwise (fun a b => key a ≤ key b) := by
  induction l with
  | nil => simp [insertStable]
  | cons y ys ih =>
    rw [List.pairwise_cons] at hl
    unfold insertStable
    by_cases hyx : key y < key x
    · rw [if_pos ((hless y x).mpr hyx), List.pairwise_cons]
      refine ⟨?_, ih hl.2⟩
      intro z hz
      rcases List.mem_cons.mp ((insertStable_perm less x ys).mem_iff.mp hz) with h | h
      · rw [h]
        exact hyx.le
      · exact hl.1 z h
    · rw [if_neg (fun h => hyx ((hless y x).mp h)), List.pairwise_cons, List.pairwise_cons]
      have hxy : key x ≤ key y := not_lt.mp hyx
      refine ⟨?_, hl⟩
      intro z hz
      rcases List.mem_cons.mp hz with h | h
      · rw [h]
        exact hxy
      · exact hxy.trans (hl.1 z h)

theorem sliceStable_sorted {γ : Type} [LinearOrder γ] (key : β → γ) (less : β → β → Bool)
    (hless : ∀ a b, less a b = true ↔ key a < key b) (l : List β) :
    (sliceStable less l).Pairwise (fun a b => key a ≤ key b) := by
  induction l with
  | nil => exact List.Pairwise.nil
  | cons x xs ih =>
    rw [sliceStable_cons]
    exact insertStable_sorted key less hless x _ ih

theorem insertStable_of_not_less (less : β → β → Bool) (x : β) (l : List β)
    (h : ∀ y ∈ l, less y x = false) : insertStable less x l = x :: l := by
  cases l with
  | nil => rfl
  | cons y ys =>
    unfold insertStable
    rw [if_neg (by simp [h y (List.mem_cons_self y ys)])]

theorem sliceStable_replicate_append (less : β → β → Bool) (z : β)
    (h : ∀ y, less y z = false) (n : Nat) (l : List β) :
    sliceStable less (List.replicate n z ++ l) = List.replicate n z ++ sliceStable less l := by
  induction n with
  | zero => simp
  | succ n ih =>
    rw [List.replicate_succ, List.cons_append, sliceStable_cons, ih]
    exact insertStable_of_not_less less z _ (fun y _ => h y)

end Sorting

/-! ## `nearestNeighbours` -/

section Nearest

variable {α : Type} [LinearOrderedField α]

theorem nearestNeighbours_eq (sqrt : α → α) (b : Boid α) (pop : List (Boid α)) :
    nearestNeighbours sqrt b pop =
      sliceTo (sliceStable (closerTo sqrt b) (List.replicate pop.length Boid.zero ++ pop))
        numNeighbours := by
  unfold nearestNeighbours
  dsimp only
  rw [foldl_append_singleton]

theorem sorted_length (sqrt : α → α) (b : Boid α) (pop : List (Boid α)) :
    (sliceStable (closerTo sqrt b) (List.replicate pop.length Boid.zero ++ pop)).length
      = 2 * pop.length := by
  rw [sliceStable_length, List.length_append, List.length_replicate]
  omega

theorem nearestNeighbours_of_small (sqrt : α → α) (b : Boid α) (pop : List (Boid α))
    (h : pop.length < 4) : nearestNeighbours sqrt b pop = none := by
  rw [nearestNeighbours_eq]
  unfold sliceTo
  rw [if_neg]
  rw [sorted_length]
  unfold numNeighbours
  omega

theorem nearestNeighbours_of_large (sqrt : α → α) (b : Boid α) (pop : List (Boid α))
    (h : 4 ≤ pop.length) :
    nearestNeighbours sqrt b pop =
      some ((sliceStable (closerTo sqrt b)
        (List.replicate pop.length Boid.zero ++ pop)).take numNeighbours) := by
  rw [nearestNeighbours_eq]
  unfold sliceTo
  rw [if_pos]
  rw [sorted_length]
  unfold numNeighbours
  omega

theorem nearestNeighbours_some_length (sqrt : α → α) (b : Boid α) (pop l : List (Boid α))
    (h : nearestNeighbours sqrt b pop = some l) : l.length = 7 := by
  rw [nearestNeighbours_eq] at h
  unfold sliceTo at h
  split_ifs at h with hlen
  injection h with h
  rw [← h, List.length_take]
  unfold numNeighbours at hlen ⊢
  omega

/-- C2 (counterexample): on a population of three boids `nearestNeighbours` does
not return seven boids, the slice expression `neighbours[0:numNeighbours]` fails. -/
theorem nearestNeighbours_threeBoids_fails :
    nearestNeighbours Real.sqrt tieFirst threeBoids = none :=
  nearestNeighbours_of_small Real.sqrt tieFirst threeBoids (by decide)

/-- C2 (amended): for every population of at least 4 boids and every target,
`nearestNeighbours` returns a list of exactly `numNeighbours` = 7 boids. -/
theorem nearestNeighbours_returns_seven (sqrt : α → α) (b : Boid α) (pop : List (Boid α))
    (h : 4 ≤ pop.length) :
    ∃ l, nearestNeighbours sqrt b pop = some l ∧ l.length = 7 := by
  refine ⟨_, nearestNeighbours_of_large sqrt b pop h, ?_⟩
  exact nearestNeighbours_some_length sqrt b pop _ (nearestNeighbours_of_large sqrt b pop h)

/-- C2 (witness): the four boids of `tiePop`. -/
theorem nearestNeighbours_returns_seven_witness :
    4 ≤ tiePop.length ∧
    ∃ l, nearestNeighbours Real.sqrt tieSecond tiePop = some l ∧ l.length = 7 :=
  ⟨by decide, nearestNeighbours_returns_seven Real.sqrt tieSecond tiePop (by decide)⟩

theorem sorted_by_distance (sqrt : α → α) (b : Boid α) (l : List (Boid α)) :
    (sliceStable (closerTo sqrt b) l).Pairwise
      (fun x y => b.position.Dist sqrt x.position ≤ b.position.Dist sqrt y.position) := by
  apply sliceStable_sorted (fun x => b.position.Dist sqrt x.position) (closerTo sqrt b)
  intro x y
  unfold closerTo
  exact decide_eq_true_iff

end Nearest

section NearestReal

theorem closerTo_real (b x y : Boid ℝ) :
    closerTo Real.sqrt b x y =
      decide (b.position.distSq x.position < b.position.distSq y.position) := by
  unfold closerTo
  exact decide_eq_decide.mpr (Dist_lt_Dist_iff _ _ _)

theorem nearestNeighbours_tiePop :
    nearestNeighbours Real.sqrt tieSecond tiePop =
      some [tieFirst, tieSecond, tieThird, tieFourth, Boid.zero, Boid.zero, Boid.zero] := by
  rw [nearestNeighbours_eq]
  norm_num [tiePop, sliceStable, insertStable, closerTo_real, Vec2.distSq, sliceTo, numNeighbours,
    tieFirst, tieSecond, tieThird, tieFourth, Boid.zero, List.replicate]

theorem nearestNeighbours_some_eq {α : Type} [LinearOrderedField α] (sqrt : α → α)
    (b : Boid α) (pop l : List (Boid α)) (h : nearestNeighbours sqrt b pop = some l) :
    4 ≤ pop.length ∧
    l = (sliceStable (closerTo sqrt b)
      (List.replicate pop.length Boid.zero ++ pop)).take numNeighbours := by
  by_cases h4 : 4 ≤ pop.length
  · rw [nearestNeighbours_of_large sqrt b pop h4] at h
    injection h with h
    exact ⟨h4, h.symm⟩
  · rw [nearestNeighbours_of_small sqrt b pop (by omega)] at h
    cases h

/-- C5: a list returned by `nearestNeighbours` is sorted in non-decreasing order
of Euclidean distance from the position of the target. -/
theorem nearestNeighbours_sorted (b : Boid ℝ) (pop l : List (Boid ℝ))
    (h : nearestNeighbours Real.sqrt b pop = some l) :
    l.Pairwise (fun x y =>
      b.position.Dist Real.sqrt x.position ≤ b.position.Dist Real.sqrt y.position) := by
  rw [(nearestNeighbours_some_eq Real.sqrt b pop l h).2]
  exact (sorted_by_distance Real.sqrt b _).sublist (List.take_sublist _ _)

/-- C5 (witness): the list returned for the second boid of `tiePop`. -/
theorem nearestNeighbours_sorted_witness :
    nearestNeighbours Real.sqrt tieSecond tiePop =
      some [tieFirst, tieSecond, tieThird, tieFourth, Boid.zero, Boid.zero, Boid.zero] ∧
    [tieFirst, tieSecond, tieThird, tieFourth, Boid.zero, Boid.zero, Boid.zero].Pairwise
      (fun x y => tieSecond.position.Dist Real.sqrt x.position
        ≤ tieSecond.position.Dist Real.sqrt y.position) :=
  ⟨nearestNeighbours_tiePop, nearestNeighbours_sorted _ _ _ nearestNeighbours_tiePop⟩

/-- C3 (counterexample): `tieSecond` belongs to `tiePop`, and the first element
of the list returned for it is `tieFirst`, which is at the same position but has
another velocity: it is not the target itself. -/
theorem nearestNeighbours_first_is_not_target :
    tieSecond ∈ tiePop ∧
    nearestNeighbours Real.sqrt tieSecond tiePop =
      some [tieFirst, tieSecond, tieThird, tieFourth, Boid.zero, Boid.zero, Boid.zero] ∧
    tieFirst.velocity ≠ tieSecond.velocity := by
  refine ⟨by simp [tiePop], nearestNeighbours_tiePop, ?_⟩
  intro h
  have hX := congrArg Vec2.X h
  norm_num [tieFirst, tieSecond] at hX

/-- C3 (amended): for every population of at least 4 boids and every target
that belongs to it, `nearestNeighbours` returns a list whose first element is at
the position of the target, hence at distance 0 from it. -/
theorem nearestNeighbours_first_position (b : Boid ℝ) (pop : List (Boid ℝ))
    (h4 : 4 ≤ pop.length) (hb : b ∈ pop) :
    ∃ n rest, nearestNeighbours Real.sqrt b pop = some (n :: rest) ∧
      n.position = b.position ∧ b.position.Dist Real.sqrt n.position = 0 := by
  have hsorted := sorted_by_distance Real.sqrt b (List.replicate pop.length Boid.zero ++ pop)
  have hmem : b ∈ sliceStable (closerTo Real.sqrt b)
      (List.replicate pop.length Boid.zero ++ pop) :=
    (mem_sliceStable _ _ _).mpr (List.mem_append_right _ hb)
  rw [nearestNeighbours_of_large Real.sqrt b pop h4]
  cases hl : sliceStable (closerTo Real.sqrt b)
      (List.replicate pop.length Boid.zero ++ pop) with
  | nil =>
    rw [hl] at hmem
    cases hmem
  | cons n rest =>
    rw [hl] at hmem hsorted
    have hle : b.position.Dist Real.sqrt n.position ≤ b.position.Dist Real.sqrt b.position := by
      rcases List.mem_cons.mp hmem with h | h
      · rw [h]
      · exact (List.pairwise_cons.mp hsorted).1 b h
    rw [Dist_self] at hle
    have hzero : b.position.Dist Real.sqrt n.position = 0 :=
      le_antisymm hle (Dist_nonneg _ _)
    refine ⟨n, rest.take 6, ?_, ((Dist_eq_zero_iff _ _).mp hzero).symm, hzero⟩
    simp [numNeighbours]

/-- C3 (witness): the second boid of `tiePop`. -/
theorem nearestNeighbours_first_position_witness :
    4 ≤ tiePop.length ∧ tieSecond ∈ tiePop ∧
    ∃ n rest, nearestNeighbours Real.sqrt tieSecond tiePop = some (n :: rest) ∧
      n.position = tieSecond.position ∧ tieSecond.position.Dist Real.sqrt n.position = 0 :=
  ⟨by decide, by simp [tiePop],
    nearestNeighbours_first_position tieSecond tiePop (by decide) (by simp [tiePop])⟩

theorem closerTo_zero_of_origin (b : Boid ℝ) (hb : b.position = { X := 0, Y := 0 })
    (y : Boid ℝ) : closerTo Real.sqrt b y Boid.zero = false := by
  rw [closerTo_real, decide_eq_false_iff_not, not_lt]
  have h0 : b.position.distSq (Boid.zero : Boid ℝ).position = 0 := by
    simp [hb, Boid.zero, Vec2.distSq]
  rw [h0]
  exact distSq_nonneg _ _

theorem nearestNeighbours_at_origin (b : Boid ℝ) (hb : b.position = { X := 0, Y := 0 })
    (pop : List (Boid ℝ)) (h7 : 7 ≤ pop.length) :
    nearestNeighbours Real.sqrt b pop = some (List.replicate 7 Boid.zero) := by
  rw [nearestNeighbours_of_large Real.sqrt b pop (by omega),
    sliceStable_replicate_append _ _ (closerTo_zero_of_origin b hb)]
  unfold numNeighbours
  rw [List.take_append_of_le_length (by simpa using h7), List.take_replicate,
    Nat.min_eq_left h7]

theorem mem_specNearestNeighbours {α : Type} [LinearOrderedField α] (sqrt : α → α)
    (b x : Boid α) (pop : List (Boid α)) (h : x ∈ specNearestNeighbours sqrt b pop) :
    x ∈ pop := by
  unfold specNearestNeighbours at h
  exact List.mem_mergeSort.mp (List.mem_of_mem_take h)

/-- C4 (the code at the failing input): for the boid in the corner `(0, 0)` of
the population `originPop` of seven boids, `nearestNeighbours` returns seven
zero boids, the padding created by `make`.  None of them is a member of the
population, so the result is not the first seven elements of the population
sorted by distance. -/
theorem nearestNeighbours_returns_padding :
    originBoid ∈ originPop ∧
    nearestNeighbours Real.sqrt originBoid originPop = some (List.replicate 7 Boid.zero) ∧
    (Boid.zero : Boid ℝ) ∉ originPop ∧
    nearestNeighbours Real.sqrt originBoid originPop
      ≠ some (specNearestNeighbours Real.sqrt originBoid originPop) := by
  have hcode : nearestNeighbours Real.sqrt originBoid originPop
      = some (List.replicate 7 Boid.zero) :=
    nearestNeighbours_at_origin originBoid rfl originPop (by decide)
  have hnot : (Boid.zero : Boid ℝ) ∉ originPop := by
    intro hmem
    have hv : ∀ x ∈ originPop, x.velocity.X = 1 := by
      intro x hx
      simp only [originPop, originBoid, List.mem_cons, List.mem_singleton] at hx
      rcases hx with h | h | h | h | h | h | h | h
      all_goals first | (rw [h]) | cases h
    have h1 := hv _ hmem
    norm_num [Boid.zero] at h1
  refine ⟨by simp [originPop], hcode, hnot, ?_⟩
  rw [hcode]
  intro h
  injection h with h
  apply hnot
  apply mem_specNearestNeighbours Real.sqrt originBoid
  rw [← h]
  simp

end NearestReal

/-! ## List bookkeeping for the tick -/

section Tick

variable {α : Type} [LinearOrderedField α]

theorem take_set_self {β : Type} (l : List β) (i : Nat) (a : β) :
    (l.set i a).take i = l.take i := by
  apply List.ext_getElem?
  intro k
  rw [List.getElem?_take, List.getElem?_take]
  split
  · rw [List.getElem?_set_ne (by omega)]
  · rfl

theorem updateBoid_of_large (sqrt : α → α) (boids : List (Boid α)) (cur : Boid α)
    (h : 4 ≤ boids.length) : ∃ new, updateBoid sqrt boids cur = some new := by
  unfold updateBoid
  rw [nearestNeighbours_of_large sqrt cur boids h]
  exact ⟨_, rfl⟩

theorem updateBoid_of_small (sqrt : α → α) (boids : List (Boid α)) (cur : Boid α)
    (h : boids.length < 4) : updateBoid sqrt boids cur = none := by
  unfold updateBoid
  rw [nearestNeighbours_of_small sqrt cur boids h]

theorem updateBoidAt_some (sqrt : α → α) (boids boids1 : List (Boid α)) (i : Nat)
    (hi : i < boids.length) (h : updateBoidAt sqrt boids i = some boids1) :
    ∃ cur new, boids[i]? = some cur ∧ updateBoid sqrt boids cur = some new ∧
      boids1 = boids.set i new := by
  unfold updateBoidAt at h
  rw [List.getElem?_eq_getElem hi] at h
  dsimp only at h
  cases hu : updateBoid sqrt boids boids[i] with
  | none =>
    rw [hu] at h
    cases h
  | some new =>
    rw [hu] at h
    injection h with h
    exact ⟨boids[i], new, List.getElem?_eq_getElem hi, hu, h.symm⟩

theorem updateBoidAt_of_large (sqrt : α → α) (boids : List (Boid α)) (i : Nat)
    (h : 4 ≤ boids.length) :
    ∃ boids1, updateBoidAt sqrt boids i = some boids1 ∧ boids1.length = boids.length := by
  unfold updateBoidAt
  cases hg : boids[i]? with
  | none => exact ⟨boids, rfl, rfl⟩
  | some cur =>
    obtain ⟨new, hnew⟩ := updateBoid_of_large sqrt boids cur h
    dsimp only
    rw [hnew]
    exact ⟨_, rfl, List.length_set _ _ _⟩

theorem updateFrom_of_large (sqrt : α → α) (n i : Nat) (boids : List (Boid α))
    (h : 4 ≤ boids.length) : ∃ boids1, updateFrom sqrt n i boids = some boids1 := by
  induction n generalizing i boids with
  | zero => exact ⟨boids, rfl⟩
  | succ n ih =>
    obtain ⟨boids1, h1, hlen⟩ := updateBoidAt_of_large sqrt boids i h
    unfold updateFrom
    rw [h1]
    exact ih (i + 1) boids1 (by omega)

theorem updateFrom_spec (sqrt : α → α) (n i : Nat) (boids out : List (Boid α))
    (hin : i + n ≤ boids.length) (h : updateFrom sqrt n i boids = some out) :
    out.length = boids.length ∧ out.take i = boids.take i ∧
    out.drop (i + n) = boids.drop (i + n) ∧
    ∀ j cur, i ≤ j → j < i + n → boids[j]? = some cur →
      updateBoid sqrt (out.take j ++ boids.drop j) cur = out[j]? := by
  induction n generalizing i boids with
  | zero =>
    unfold updateFrom at h
    injection h with h
    subst h
    refine ⟨rfl, rfl, rfl, ?_⟩
    intro j cur h1 h2
    omega
  | succ n ih =>
    unfold updateFrom at h
    cases h1 : updateBoidAt sqrt boids i with
    | none =>
      rw [h1] at h
      cases h
    | some boids1 =>
      rw [h1] at h
      dsimp only at h
      obtain ⟨cur0, new, hcur0, hnew, hset⟩ :=
        updateBoidAt_some sqrt boids boids1 i (by omega) h1
      have hlen1 : boids1.length = boids.length := by rw [hset, List.length_set]
      obtain ⟨hlen, htake, hdrop, hstep⟩ := ih (i + 1) boids1 (by omega) h
      have htake_i : out.take i = boids.take i := by
        have := congrArg (List.take i) htake
        rw [List.take_take, List.take_take, Nat.min_eq_left (Nat.le_succ i)] at this
        rw [this, hset, take_set_self]
      refine ⟨hlen.trans hlen1, htake_i, ?_, ?_⟩
      · have : i + 1 + n = i + (n + 1) := by omega
        rw [← this, hdrop, hset, List.drop_set_of_lt _ _ (by omega)]
      · intro j cur hij hj hcur
        rcases Nat.eq_or_lt_of_le hij with hji | hji
        · subst hji
          rw [htake_i, List.take_append_drop]
          rw [hcur0] at hcur
          injection hcur with hcur
          subst hcur
          rw [hnew]
          have hget : out[i]? = boids1[i]? := by
            rw [← List.getElem?_take_of_lt (Nat.lt_succ_self i), htake,
              List.getElem?_take_of_lt (Nat.lt_succ_self i)]
          rw [hget, hset, List.getElem?_set_self (by omega)]
        · have hd : boids1.drop j = boids.drop j := by
            rw [hset, List.drop_set_of_lt _ _ hji]
          have hg : boids1[j]? = some cur := by
            rw [hset, List.getElem?_set_ne (by omega)]
            exact hcur
          rw [← hd]
          exact hstep j cur (by omega) (by omega) hg

theorem updateBoidPositions_some_iff (sqrt : α → α) (boids : List (Boid α)) :
    (∃ out, updateBoidPositions sqrt boids = some out) ↔ (boids = [] ∨ 4 ≤ boids.length) := by
  constructor
  · rintro ⟨out, h⟩
    cases boids with
    | nil => exact Or.inl rfl
    | cons b bs =>
      right
      by_contra hlt
      unfold updateBoidPositions at h
      rw [List.length_cons] at h
      unfold updateFrom updateBoidAt at h
      rw [List.getElem?_cons_zero] at h
      dsimp only at h
      rw [updateBoid_of_small sqrt (b :: bs) b (by omega)] at h
      cases h
  · rintro (h | h)
    · subst h
      exact ⟨[], rfl⟩
    · exact updateFrom_of_large sqrt _ 0 boids h

/-- C7: one tick processes the boids one after the other in index order.  When
`updateBoidPositions` completes, which it does exactly on the empty population
and on the populations of at least 4 boids, the result has the length of the
population, and its boid at index `i` is the single-boid update of the boid at
index `i`, evaluated against the population whose boids before `i` already hold
their new state and whose boids from `i` on still hold their start-of-tick state. -/
theorem updateBoidPositions_sequential (sqrt : α → α) (boids : List (Boid α)) :
    (∀ out, updateBoidPositions sqrt boids = some out →
      out.length = boids.length ∧
      ∀ i cur, boids[i]? = some cur →
        ∃ new, out[i]? = some new ∧
          updateBoid sqrt (out.take i ++ boids.drop i) cur = some new) ∧
    ((∃ out, updateBoidPositions sqrt boids = some out) ↔ (boids = [] ∨ 4 ≤ boids.length)) := by
  refine ⟨?_, updateBoidPositions_some_iff sqrt boids⟩
  intro out h
  obtain ⟨hlen, _, _, hstep⟩ := updateFrom_spec sqrt boids.length 0 boids out (by omega) h
  refine ⟨hlen, ?_⟩
  intro i cur hcur
  have hi : i < boids.length := (List.getElem?_eq_some.mp hcur).1
  have hi2 : i < out.length := by omega
  refine ⟨out[i], List.getElem?_eq_getElem hi2, ?_⟩
  rw [hstep i cur (Nat.zero_le i) (by omega) hcur, List.getElem?_eq_getElem hi2]

/-- C6 (amended): in one tick the boid at index `i` is updated against the
population as it stands when its turn comes, the boids before it already
holding their new state.  Its new state is the single-boid update evaluated
against the start-of-tick population for the first boid (index 0) and, more
generally, whenever the boids before it were left unchanged by the tick.  The
tick completes on every population of at least 4 boids. -/
theorem updateBoidPositions_snapshot_of_unchanged (sqrt : α → α) (boids : List (Boid α)) :
    (∀ out, updateBoidPositions sqrt boids = some out →
      ∀ i cur, boids[i]? = some cur →
        out[i]? = updateBoid sqrt (out.take i ++ boids.drop i) cur) ∧
    (∀ out, updateBoidPositions sqrt boids = some out →
      ∀ cur, boids[0]? = some cur → out[0]? = updateBoid sqrt boids cur) ∧
    (∀ out, updateBoidPositions sqrt boids = some out →
      ∀ i cur, boids[i]? = some cur → out.take i = boids.take i →
        out[i]? = updateBoid sqrt boids cur) ∧
    (4 ≤ boids.length → ∃ out, updateBoidPositions sqrt boids = some out) := by
  have inplace : ∀ out, updateBoidPositions sqrt boids = some out →
      ∀ i cur, boids[i]? = some cur →
        out[i]? = updateBoid sqrt (out.take i ++ boids.drop i) cur := by
    intro out h i cur hcur
    obtain ⟨_, _, _, hstep⟩ := updateFrom_spec sqrt boids.length 0 boids out (by omega) h
    have hi : i < boids.length := (List.getElem?_eq_some.mp hcur).1
    exact (hstep i cur (Nat.zero_le i) (by omega) hcur).symm
  have key : ∀ out, updateBoidPositions sqrt boids = some out →
      ∀ i cur, boids[i]? = some cur → out.take i = boids.take i →
        out[i]? = updateBoid sqrt boids cur := by
    intro out h i cur hcur htake
    rw [inplace out h i cur hcur, htake, List.take_append_drop]
  refine ⟨inplace, ?_, key, fun h => updateFrom_of_large sqrt _ 0 boids h⟩
  intro out h cur hcur
  exact key out h 0 cur hcur rfl

end Tick

/-! ## The three rules -/

section Rules

variable {α : Type} [LinearOrderedField α]

theorem foldl_Add (f : Boid α → Vec2 α) (l : List (Boid α)) (init : Vec2 α) :
    l.foldl (fun (t : Vec2 α) b => t.Add (f b)) init = init.Add (sumVec (l.map f)) := by
  induction l generalizing init with
  | nil => simp [sumVec, Vec2.Add]
  | cons x xs ih =>
    rw [List.foldl_cons, ih]
    simp only [sumVec, Vec2.Add, List.map_cons, List.sum_cons]
    congr 1 <;> ring

theorem zero_Add (v : Vec2 α) : ({ X := 0, Y := 0 } : Vec2 α).Add v = v := by
  simp [Vec2.Add]

theorem centreOfMassRule_eq (boids : List (Boid α)) (cur : Boid α) :
    centreOfMassRule boids cur =
      ((meanVec (boids.map Boid.position)).Subtract cur.position).Divide 100 := by
  unfold centreOfMassRule
  dsimp only
  rw [foldl_Add Boid.position, zero_Add]
  simp [meanVec, sumVec, Vec2.Divide]

theorem velocityRule_eq (boids : List (Boid α)) (cur : Boid α) :
    velocityRule boids cur =
      ((meanVec (boids.map Boid.velocity)).Subtract cur.velocity).Divide 20 := by
  unfold velocityRule
  dsimp only
  rw [foldl_Add Boid.velocity, zero_Add]
  simp [meanVec, sumVec, Vec2.Divide]

theorem Subtract_self_Divide (v : Vec2 α) (k : α) :
    (v.Subtract v).Divide k = { X := 0, Y := 0 } := by
  simp [Vec2.Subtract, Vec2.Divide]

theorem nearbyRule_foldl (sqrt : α → α) (boids : List (Boid α)) (cur : Boid α)
    (init : Vec2 α) :
    boids.foldl
      (fun (Direction : Vec2 α) boid =>
        if boid.position.Dist sqrt cur.position < (nearbyDistance : α) then
          Direction.Add (cur.position.Subtract boid.position)
        else Direction) init =
      init.Add (sumVec ((boids.filter
        (fun b => decide (b.position.Dist sqrt cur.position < 25))).map
          (fun b => cur.position.Subtract b.position))) := by
  have h25 : ((nearbyDistance : ℕ) : α) = 25 := by simp [nearbyDistance]
  induction boids generalizing init with
  | nil => simp [sumVec, Vec2.Add]
  | cons x xs ih =>
    rw [List.foldl_cons, ih, h25]
    by_cases hx : x.position.Dist sqrt cur.position < 25
    · rw [if_pos hx, List.filter_cons_of_pos (by simpa using hx)]
      simp only [sumVec, Vec2.Add, List.map_cons, List.sum_cons]
      congr 1 <;> ring
    · rw [if_neg hx, List.filter_cons_of_neg (by simpa using hx)]

/-- C11: `nearbyRule` returns the unscaled sum of `target.position -
neighbour.position` over the neighbours whose distance to the target is
strictly less than 25; it is the zero vector when every neighbour is at
distance 25 or more. -/
theorem nearbyRule_sum (sqrt : α → α) (boids : List (Boid α)) (cur : Boid α) :
    nearbyRule sqrt boids cur =
      sumVec ((boids.filter
        (fun b => decide (b.position.Dist sqrt cur.position < 25))).map
          (fun b => cur.position.Subtract b.position)) ∧
    ((∀ b ∈ boids, 25 ≤ b.position.Dist sqrt cur.position) →
      nearbyRule sqrt boids cur = { X := 0, Y := 0 }) := by
  have hsum : nearbyRule sqrt boids cur =
      sumVec ((boids.filter
        (fun b => decide (b.position.Dist sqrt cur.position < 25))).map
          (fun b => cur.position.Subtract b.position)) := by
    unfold nearbyRule
    rw [nearbyRule_foldl, zero_Add]
  refine ⟨hsum, ?_⟩
  intro hfar
  have hnone : boids.filter
      (fun b => decide (b.position.Dist sqrt cur.position < 25)) = [] := by
    rw [List.filter_eq_nil_iff]
    intro b hb
    simpa using hfar b hb
  rw [hsum, hnone]
  simp [sumVec]

/-- C12: for a non-empty neighbour list whose centroid (mean position) is the
position of the target, `centreOfMassRule` returns the zero vector; so it does
for the list made of the target alone. -/
theorem centreOfMassRule_zero (boids : List (Boid α)) (cur : Boid α)
    (_hne : boids ≠ []) (hc : meanVec (boids.map Boid.position) = cur.position) :
    centreOfMassRule boids cur = { X := 0, Y := 0 } ∧
    centreOfMassRule [cur] cur = { X := 0, Y := 0 } := by
  constructor
  · rw [centreOfMassRule_eq, hc, Subtract_self_Divide]
  · rw [centreOfMassRule_eq]
    have h1 : meanVec ([cur].map Boid.position) = cur.position := by
      simp [meanVec]
    rw [h1, Subtract_self_Divide]

/-- C13: for a non-empty neighbour list, `velocityRule` returns the mean
velocity of the list minus the velocity of the target, divided by 20; it is the
zero vector when the mean velocity is the velocity of the target. -/
theorem velocityRule_mean (boids : List (Boid α)) (cur : Boid α) (_hne : boids ≠ []) :
    velocityRule boids cur =
      ((meanVec (boids.map Boid.velocity)).Subtract cur.velocity).Divide 20 ∧
    (meanVec (boids.map Boid.velocity) = cur.velocity →
      velocityRule boids cur = { X := 0, Y := 0 }) := by
  refine ⟨velocityRule_eq boids cur, ?_⟩
  intro h
  rw [velocityRule_eq, h, Subtract_self_Divide]

end Rules

section RulesReal

/-- C12 (witness): the two agents at `(0, 0)` and `(10, 0)`, and a target
half-way between them. -/
theorem centreOfMassRule_zero_witness :
    [pairFirst, pairSecond] ≠ [] ∧
    meanVec ([pairFirst, pairSecond].map Boid.position) = pairMiddle.position ∧
    centreOfMassRule [pairFirst, pairSecond] pairMiddle = { X := 0, Y := 0 } ∧
    centreOfMassRule [pairMiddle] pairMiddle = { X := 0, Y := 0 } := by
  have hc : meanVec ([pairFirst, pairSecond].map Boid.position) = pairMiddle.position := by
    norm_num [meanVec, pairFirst, pairSecond, pairMiddle]
  exact ⟨by simp, hc, centreOfMassRule_zero [pairFirst, pairSecond] pairMiddle (by simp) hc⟩

/-- C13 (witness): the two agents at rest, for which the rule gives the zero vector. -/
theorem velocityRule_mean_witness :
    [pairFirst, pairSecond] ≠ [] ∧
    velocityRule [pairFirst, pairSecond] pairFirst =
      ((meanVec ([pairFirst, pairSecond].map Boid.velocity)).Subtract
        pairFirst.velocity).Divide 20 ∧
    (meanVec ([pairFirst, pairSecond].map Boid.velocity) = pairFirst.velocity →
      velocityRule [pairFirst, pairSecond] pairFirst = { X := 0, Y := 0 }) :=
  ⟨by simp, velocityRule_mean [pairFirst, pairSecond] pairFirst (by simp)⟩

/-- C14: the rules on the neighbour set made of the two agents at `(0, 0)` and
`(10, 0)`, both at rest.  `nearbyRule` gives `(-10, 0)` and `(10, 0)`,
`centreOfMassRule` gives `(0.05, 0)` and `(-0.05, 0)`, `velocityRule` gives
`(0, 0)`, and the velocity after the three additions of `updateBoidPositions`
is `(-9.95, 0)` for the agent at the origin and `(9.95, 0)` for the other. -/
theorem rules_two_agents :
    nearbyRule Real.sqrt [pairFirst, pairSecond] pairFirst = { X := -10, Y := 0 } ∧
    nearbyRule Real.sqrt [pairFirst, pairSecond] pairSecond = { X := 10, Y := 0 } ∧
    centreOfMassRule [pairFirst, pairSecond] pairFirst = { X := 0.05, Y := 0 } ∧
    centreOfMassRule [pairFirst, pairSecond] pairSecond = { X := -0.05, Y := 0 } ∧
    velocityRule [pairFirst, pairSecond] pairFirst = { X := 0, Y := 0 } ∧
    velocityRule [pairFirst, pairSecond] pairSecond = { X := 0, Y := 0 } ∧
    ((pairFirst.velocity.Add (centreOfMassRule [pairFirst, pairSecond] pairFirst)).Add
        (nearbyRule Real.sqrt [pairFirst, pairSecond] pairFirst)).Add
        (velocityRule [pairFirst, pairSecond] pairFirst) = { X := -9.95, Y := 0 } ∧
    ((pairSecond.velocity.Add (centreOfMassRule [pairFirst, pairSecond] pairSecond)).Add
        (nearbyRule Real.sqrt [pairFirst, pairSecond] pairSecond)).Add
        (velocityRule [pairFirst, pairSecond] pairSecond) = { X := 9.95, Y := 0 } := by
  have n1 : nearbyRule Real.sqrt [pairFirst, pairSecond] pairFirst = { X := -10, Y := 0 } := by
    norm_num [nearbyRule, Dist_lt_nearbyDistance, Vec2.distSq, Vec2.Add, Vec2.Subtract,
      pairFirst, pairSecond]
  have n2 : nearbyRule Real.sqrt [pairFirst, pairSecond] pairSecond = { X := 10, Y := 0 } := by
    norm_num [nearbyRule, Dist_lt_nearbyDistance, Vec2.distSq, Vec2.Add, Vec2.Subtract,
      pairFirst, pairSecond]
  have c1 : centreOfMassRule [pairFirst, pairSecond] pairFirst = { X := 0.05, Y := 0 } := by
    norm_num [centreOfMassRule, Vec2.Add, Vec2.Subtract, Vec2.Divide, pairFirst, pairSecond]
  have c2 : centreOfMassRule [pairFirst, pairSecond] pairSecond = { X := -0.05, Y := 0 } := by
    norm_num [centreOfMassRule, Vec2.Add, Vec2.Subtract, Vec2.Divide, pairFirst, pairSecond]
  have v1 : velocityRule [pairFirst, pairSecond] pairFirst = { X := 0, Y := 0 } := by
    norm_num [velocityRule, Vec2.Add, Vec2.Subtract, Vec2.Divide, pairFirst, pairSecond]
  have v2 : velocityRule [pairFirst, pairSecond] pairSecond = { X := 0, Y := 0 } := by
    norm_num [velocityRule, Vec2.Add, Vec2.Subtract, Vec2.Divide, pairFirst, pairSecond]
  refine ⟨n1, n2, c1, c2, v1, v2, ?_, ?_⟩
  · rw [n1, c1, v1]
    norm_num [Vec2.Add, pairFirst]
  · rw [n2, c2, v2]
    norm_num [Vec2.Add, pairSecond]

end RulesReal

/-! ## `limitVelocity` -/

section Limit

theorem limitVelocity_position (b : Boid ℝ) :
    (limitVelocity Real.sqrt b).position = b.position := by
  unfold limitVelocity
  dsimp only
  split_ifs <;> rfl

theorem limitVelocity_of_le (b : Boid ℝ) (h : b.velocity.Length Real.sqrt ≤ 5) :
    limitVelocity Real.sqrt b = b := by
  unfold limitVelocity
  dsimp only
  rw [if_neg (not_lt.mpr h)]

theorem limitVelocity_of_gt (b : Boid ℝ) (h : 5 < b.velocity.Length Real.sqrt) :
    (limitVelocity Real.sqrt b).velocity =
      b.velocity.Multiply (5 / b.velocity.Length Real.sqrt) := by
  unfold limitVelocity
  dsimp only
  rw [if_pos h]
  exact Divide_Multiply _ _ _

theorem limitVelocity_Length_le (b : Boid ℝ) :
    (limitVelocity Real.sqrt b).velocity.Length Real.sqrt ≤ 5 := by
  by_cases h : 5 < b.velocity.Length Real.sqrt
  · have hpos : 0 < b.velocity.Length Real.sqrt := by linarith
    rw [limitVelocity_of_gt b h, Length_Multiply _ (div_pos (by norm_num) hpos).le,
      div_mul_cancel₀ _ hpos.ne.symm]
  · rw [limitVelocity_of_le b (not_lt.mp h)]
    exact not_lt.mp h

/-- C10: `limitVelocity` never changes the position; it leaves the velocity
unchanged when its length is at most 5; when the length is greater than 5 the
new velocity is the old one multiplied by the positive scalar `5 / length`, and
its length is exactly 5. -/
theorem limitVelocity_spec (b : Boid ℝ) :
    (limitVelocity Real.sqrt b).position = b.position ∧
    (b.velocity.Length Real.sqrt ≤ 5 → (limitVelocity Real.sqrt b).velocity = b.velocity) ∧
    (5 < b.velocity.Length Real.sqrt →
      0 < 5 / b.velocity.Length Real.sqrt ∧
      (limitVelocity Real.sqrt b).velocity =
        b.velocity.Multiply (5 / b.velocity.Length Real.sqrt) ∧
      (limitVelocity Real.sqrt b).velocity.Length Real.sqrt = 5) := by
  refine ⟨limitVelocity_position b, ?_, ?_⟩
  · intro h
    rw [limitVelocity_of_le b h]
  · intro h
    have hpos : 0 < b.velocity.Length Real.sqrt := by linarith
    have hk : 0 < 5 / b.velocity.Length Real.sqrt := div_pos (by norm_num) hpos
    refine ⟨hk, limitVelocity_of_gt b h, ?_⟩
    rw [limitVelocity_of_gt b h, Length_Multiply _ hk.le, div_mul_cancel₀ _ hpos.ne.symm]

end Limit

/-! ## One tick -/

section TickReal

theorem nearestNeighbours_gridFirst :
    nearestNeighbours Real.sqrt gridFirst gridPop =
      some [gridFirst, gridSecond, gridThird, gridFourth, Boid.zero, Boid.zero, Boid.zero] := by
  rw [nearestNeighbours_eq]
  norm_num [gridPop, sliceStable, insertStable, closerTo_real, Vec2.distSq, sliceTo,
    numNeighbours, gridFirst, gridSecond, gridThird, gridFourth, Boid.zero, List.replicate]

theorem nearestNeighbours_gridSecond_snapshot :
    nearestNeighbours Real.sqrt gridSecond gridPop =
      some [gridSecond, gridFirst, gridFourth, gridThird, Boid.zero, Boid.zero, Boid.zero] := by
  rw [nearestNeighbours_eq]
  norm_num [gridPop, sliceStable, insertStable, closerTo_real, Vec2.distSq, sliceTo,
    numNeighbours, gridFirst, gridSecond, gridThird, gridFourth, Boid.zero, List.replicate]

theorem nearestNeighbours_gridSecond_inplace :
    nearestNeighbours Real.sqrt gridSecond [gridFirstNew, gridSecond, gridThird, gridFourth] =
      some [gridSecond, gridFourth, gridFirstNew, gridThird, Boid.zero, Boid.zero, Boid.zero] := by
  rw [nearestNeighbours_eq]
  norm_num [sliceStable, insertStable, closerTo_real, Vec2.distSq, sliceTo,
    numNeighbours, gridFirstNew, gridSecond, gridThird, gridFourth, Boid.zero, List.replicate]

theorem updateBoid_gridFirst :
    updateBoid Real.sqrt gridPop gridFirst = some gridFirstNew := by
  unfold updateBoid
  rw [nearestNeighbours_gridFirst]
  norm_num [centreOfMassRule, nearbyRule, velocityRule, limitVelocity, stayInWindow,
    Vec2.Add, Vec2.Subtract, Vec2.Divide, Vec2.Multiply, Dist_lt_nearbyDistance, Length_gt_five,
    Vec2.distSq, gridFirst, gridSecond, gridThird, gridFourth, gridFirstNew, Boid.zero,
    windowWidth, windowHeight]

theorem updateBoid_gridSecond_snapshot :
    updateBoid Real.sqrt gridPop gridSecond = some gridSecondSnapshot := by
  unfold updateBoid
  rw [nearestNeighbours_gridSecond_snapshot]
  norm_num [centreOfMassRule, nearbyRule, velocityRule, limitVelocity, stayInWindow,
    Vec2.Add, Vec2.Subtract, Vec2.Divide, Vec2.Multiply, Dist_lt_nearbyDistance, Length_gt_five,
    Vec2.distSq, gridFirst, gridSecond, gridThird, gridFourth, gridSecondSnapshot, Boid.zero,
    windowWidth, windowHeight]

theorem updateBoid_gridSecond_inplace :
    updateBoid Real.sqrt [gridFirstNew, gridSecond, gridThird, gridFourth] gridSecond
      = some { position := { X := 139297 / 350, Y := 104647 / 350 },
               velocity := { X := -703 / 350, Y := -353 / 350 } } := by
  unfold updateBoid
  rw [nearestNeighbours_gridSecond_inplace]
  norm_num [centreOfMassRule, nearbyRule, velocityRule, limitVelocity, stayInWindow,
    Vec2.Add, Vec2.Subtract, Vec2.Divide, Vec2.Multiply, Dist_lt_nearbyDistance, Length_gt_five,
    Vec2.distSq, gridFirstNew, gridSecond, gridThird, gridFourth, Boid.zero,
    windowWidth, windowHeight]

theorem updateBoid_velocity_le (boids : List (Boid ℝ)) (cur new : Boid ℝ)
    (h : updateBoid Real.sqrt boids cur = some new) : new.velocity.Length Real.sqrt ≤ 5 := by
  unfold updateBoid at h
  cases hn : nearestNeighbours Real.sqrt cur boids with
  | none =>
    rw [hn] at h
    cases h
  | some neighbours =>
    rw [hn] at h
    dsimp only at h
    injection h with h
    rw [← h, stayInWindow_velocity]
    exact limitVelocity_Length_le _

/-- C1: when a tick (`updateBoidPositions`) completes, the velocity of every
boid of the resulting population has Euclidean length at most 5; and the tick
completes on every population of at least 4 boids, with a population of the
same size. -/
theorem updateBoidPositions_velocity_le (boids : List (Boid ℝ)) :
    (∀ out, updateBoidPositions Real.sqrt boids = some out →
      ∀ b ∈ out, b.velocity.Length Real.sqrt ≤ 5) ∧
    (4 ≤ boids.length →
      ∃ out, updateBoidPositions Real.sqrt boids = some out ∧ out.length = boids.length) := by
  constructor
  · intro out h b hb
    obtain ⟨hlen, _, _, hstep⟩ :=
      updateFrom_spec Real.sqrt boids.length 0 boids out (by omega) h
    obtain ⟨i, hi⟩ := List.mem_iff_getElem?.mp hb
    have hi2 : i < out.length := (List.getElem?_eq_some.mp hi).1
    have hi3 : i < boids.length := by omega
    have hupd := hstep i boids[i] (Nat.zero_le i) (by omega) (List.getElem?_eq_getElem hi3)
    rw [hi] at hupd
    exact updateBoid_velocity_le _ _ _ hupd
  · intro h4
    obtain ⟨out, h⟩ := updateFrom_of_large Real.sqrt boids.length 0 boids h4
    exact ⟨out, h, (updateFrom_spec Real.sqrt boids.length 0 boids out (by omega) h).1⟩

/-- C6 (counterexample): in the tick on `gridPop` the second boid ends in a
state that is not its single-boid update evaluated against `gridPop` as it stood
at the start of the tick, because the first boid has moved before. -/
theorem updateBoidPositions_not_snapshot :
    ∃ out, updateBoidPositions Real.sqrt gridPop = some out ∧
      gridPop[1]? = some gridSecond ∧
      out[1]? = some { position := { X := 139297 / 350, Y := 104647 / 350 },
                       velocity := { X := -703 / 350, Y := -353 / 350 } } ∧
      updateBoid Real.sqrt gridPop gridSecond = some gridSecondSnapshot ∧
      out[1]? ≠ updateBoid Real.sqrt gridPop gridSecond := by
  obtain ⟨out, h⟩ := updateFrom_of_large Real.sqrt gridPop.length 0 gridPop (by decide)
  obtain ⟨hlen, _, _, hstep⟩ :=
    updateFrom_spec Real.sqrt gridPop.length 0 gridPop out (by omega) h
  have h0 : out[0]? = some gridFirstNew := by
    have := hstep 0 gridFirst (le_refl 0) (by decide) rfl
    rw [List.take_zero, List.nil_append, List.drop_zero, updateBoid_gridFirst] at this
    exact this.symm
  have htake : out.take 1 = [gridFirstNew] := by
    rw [List.take_succ, List.take_zero, h0]
    rfl
  have h1 : out[1]? =
      some { position := { X := 139297 / 350, Y := 104647 / 350 },
             velocity := { X := -703 / 350, Y := -353 / 350 } } := by
    have := hstep 1 gridSecond (by decide) (by decide) rfl
    rw [htake] at this
    have hd : [gridFirstNew] ++ List.drop 1 gridPop
        = [gridFirstNew, gridSecond, gridThird, gridFourth] := rfl
    rw [hd, updateBoid_gridSecond_inplace] at this
    exact this.symm
  refine ⟨out, h, rfl, h1, updateBoid_gridSecond_snapshot, ?_⟩
  rw [h1, updateBoid_gridSecond_snapshot]
  intro heq
  injection heq with heq
  have hX := congrArg (fun b => b.velocity.X) heq
  norm_num [gridSecondSnapshot] at hX

end TickReal

/-! ## Initial population -/

section Initial

variable {α : Type} [LinearOrderedField α]

theorem randomBoid_spec {σ : Type} (Intn : σ → Nat → Nat × σ)
    (hIntn : ∀ s k, 0 < k → (Intn s k).1 < k) (s : σ) :
    ∃ x y vx vy : Int,
      ((randomBoid Intn s).1 : Boid α).position.X = (x : α) ∧ 0 ≤ x ∧ x < 1280 ∧
      ((randomBoid Intn s).1 : Boid α).position.Y = (y : α) ∧ 0 ≤ y ∧ y < 760 ∧
      ((randomBoid Intn s).1 : Boid α).velocity.X = (vx : α) ∧ -5 ≤ vx ∧ vx < 5 ∧
      ((randomBoid Intn s).1 : Boid α).velocity.Y = (vy : α) ∧ -5 ≤ vy ∧ vy < 5 := by
  have hX := hIntn s windowWidth (by decide)
  have hY := hIntn (Intn s windowWidth).2 windowHeight (by decide)
  have hVX := hIntn (Intn (Intn s windowWidth).2 windowHeight).2 10 (by decide)
  have hVY := hIntn (Intn (Intn (Intn s windowWidth).2 windowHeight).2 10).2 10 (by decide)
  refine ⟨((Intn s windowWidth).1 : Int),
    ((Intn (Intn s windowWidth).2 windowHeight).1 : Int),
    ((Intn (Intn (Intn s windowWidth).2 windowHeight).2 10).1 : Int) - 5,
    ((Intn (Intn (Intn (Intn s windowWidth).2 windowHeight).2 10).2 10).1 : Int) - 5,
    ?_, ?_, ?_, ?_, ?_, ?_, rfl, ?_, ?_, rfl, ?_, ?_⟩
  · simp [randomBoid]
  · omega
  · have h : windowWidth = 1280 := rfl
    omega
  · simp [randomBoid]
  · omega
  · have h : windowHeight = 760 := rfl
    omega
  · omega
  · omega
  · omega
  · omega

/-- C15: with a generator whose `Intn(k)` returns an integer in `[0, k)`,
`initializeBoids(n)` returns exactly `n` boids, each with an integer-valued
position, `X` in `[0, 1280)` and `Y` in `[0, 760)`, and an integer-valued
velocity with both components in `[-5, 5)`. -/
theorem initializeBoids_spec {σ : Type} (Intn : σ → Nat → Nat × σ)
    (hIntn : ∀ s k, 0 < k → (Intn s k).1 < k) (n : Nat) (s : σ) :
    ((initializeBoids Intn n s).1 : List (Boid α)).length = n ∧
    ∀ b ∈ ((initializeBoids Intn n s).1 : List (Boid α)),
      ∃ x y vx vy : Int,
        b.position.X = (x : α) ∧ 0 ≤ x ∧ x < 1280 ∧
        b.position.Y = (y : α) ∧ 0 ≤ y ∧ y < 760 ∧
        b.velocity.X = (vx : α) ∧ -5 ≤ vx ∧ vx < 5 ∧
        b.velocity.Y = (vy : α) ∧ -5 ≤ vy ∧ vy < 5 := by
  induction n generalizing s with
  | zero =>
    refine ⟨rfl, ?_⟩
    intro b hb
    cases hb
  | succ n ih =>
    obtain ⟨hlen, hall⟩ := ih (randomBoid Intn s : Boid α × σ).2
    constructor
    · show (List.length (_ :: _)) = n + 1
      rw [List.length_cons, hlen]
    · intro b hb
      have hb2 : b ∈ ((randomBoid Intn s).1 : Boid α) ::
          ((initializeBoids Intn n (randomBoid Intn s : Boid α × σ).2).1 : List (Boid α)) := hb
      rcases List.mem_cons.mp hb2 with h | h
      · rw [h]
        exact randomBoid_spec Intn hIntn s
      · exact hall b h

/-- C15 (witness): three boids drawn from the counter generator. -/
theorem initializeBoids_spec_witness :
    (∀ s k, 0 < k → (counterSource s k).1 < k) ∧
    ((initializeBoids counterSource 3 1278).1 : List (Boid ℝ)).length = 3 ∧
    ∀ b ∈ ((initializeBoids counterSource 3 1278).1 : List (Boid ℝ)),
      ∃ x y vx vy : Int,
        b.position.X = (x : ℝ) ∧ 0 ≤ x ∧ x < 1280 ∧
        b.position.Y = (y : ℝ) ∧ 0 ≤ y ∧ y < 760 ∧
        b.velocity.X = (vx : ℝ) ∧ -5 ≤ vx ∧ vx < 5 ∧
        b.velocity.Y = (vy : ℝ) ∧ -5 ≤ vy ∧ vy < 5 :=
  ⟨fun s _ hk => Nat.mod_lt s hk,
    initializeBoids_spec counterSource (fun s _ hk => Nat.mod_lt s hk) 3 1278⟩

end Initial

/-! ## `stayInWindow` beyond the right and bottom edges -/

section WindowEdges

variable {α : Type} [LinearOrderedField α]

/-- C20: a coordinate `c` greater than the size `S` of its axis (1280 for `X`,
760 for `Y`) is mapped by `stayInWindow` to `S - c`, which is strictly
negative, so the boid is still outside the window; a coordinate `c` with
`-S ≤ c < 0` is mapped into `[0, S)`. -/
theorem stayInWindow_beyond_edges (b : Boid α) :
    (1280 < b.position.X →
      (stayInWindow b).position.X = 1280 - b.position.X ∧ (stayInWindow b).position.X < 0) ∧
    (760 < b.position.Y →
      (stayInWindow b).position.Y = 760 - b.position.Y ∧ (stayInWindow b).position.Y < 0) ∧
    (-1280 ≤ b.position.X → b.position.X < 0 →
      0 ≤ (stayInWindow b).position.X ∧ (stayInWindow b).position.X < 1280) ∧
    (-760 ≤ b.position.Y → b.position.Y < 0 →
      0 ≤ (stayInWindow b).position.Y ∧ (stayInWindow b).position.Y < 760) := by
  have hW : ((windowWidth : ℕ) : α) = 1280 := by simp [windowWidth]
  have hH : ((windowHeight : ℕ) : α) = 760 := by simp [windowHeight]
  refine ⟨?_, ?_, ?_, ?_⟩
  · intro h
    have h0 : ¬ b.position.X < 0 := by linarith
    rw [stayInWindow_X, hW, if_neg h0, if_pos h]
    exact ⟨rfl, by linarith⟩
  · intro h
    have h0 : ¬ b.position.Y < 0 := by linarith
    rw [stayInWindow_Y, hH, if_neg h0, if_pos h]
    exact ⟨rfl, by linarith⟩
  · intro hlo h
    rw [stayInWindow_X, hW, if_pos h]
    exact ⟨by linarith, by linarith⟩
  · intro hlo h
    rw [stayInWindow_Y, hH, if_pos h]
    exact ⟨by linarith, by linarith⟩

end WindowEdges

/-! ## The single-boid update -/

section SingleUpdate

variable {α : Type} [LinearOrderedField α]

theorem limitVelocity_position_eq (sqrt : α → α) (b : Boid α) :
    (limitVelocity sqrt b).position = b.position := by
  unfold limitVelocity
  dsimp only
  split_ifs <;> rfl

theorem updateBoid_some (sqrt : α → α) (boids : List (Boid α)) (cur new : Boid α)
    (h : updateBoid sqrt boids cur = some new) :
    ∃ neighbours, nearestNeighbours sqrt cur boids = some neighbours ∧
      new.velocity =
        (limitVelocity sqrt
          { position := cur.position,
            velocity := ((cur.velocity.Add (centreOfMassRule neighbours cur)).Add
              (nearbyRule sqrt neighbours cur)).Add (velocityRule neighbours cur) }).velocity ∧
      new.position =
        (stayInWindow
          { position := cur.position.Add new.velocity, velocity := new.velocity }).position := by
  unfold updateBoid at h
  cases hn : nearestNeighbours sqrt cur boids with
  | none =>
    rw [hn] at h
    cases h
  | some neighbours =>
    rw [hn] at h
    dsimp only at h
    injection h with h
    have hv : new.velocity =
        (limitVelocity sqrt
          { position := cur.position,
            velocity := ((cur.velocity.Add (centreOfMassRule neighbours cur)).Add
              (nearbyRule sqrt neighbours cur)).Add (velocityRule neighbours cur) }).velocity := by
      rw [← h, stayInWindow_velocity]
    refine ⟨neighbours, rfl, hv, ?_⟩
    rw [hv, ← h, limitVelocity_position_eq]

/-- C16: every boid processed in a tick gets, from the one list `neighbours`
returned by `nearestNeighbours` for it and from its position and velocity before
its update, the velocity `limitVelocity(old velocity + centreOfMassRule +
nearbyRule + velocityRule)` and the position `stayInWindow(old position + new
velocity)`.  The tick completes on every population of at least 4 boids. -/
theorem updateBoidPositions_single_update (sqrt : α → α) (boids : List (Boid α)) :
    (∀ out, updateBoidPositions sqrt boids = some out →
      ∀ i cur, boids[i]? = some cur →
        ∃ neighbours new,
          nearestNeighbours sqrt cur (out.take i ++ boids.drop i) = some neighbours ∧
          out[i]? = some new ∧
          new.velocity =
            (limitVelocity sqrt
              { position := cur.position,
                velocity := ((cur.velocity.Add (centreOfMassRule neighbours cur)).Add
                  (nearbyRule sqrt neighbours cur)).Add
                  (velocityRule neighbours cur) }).velocity ∧
          new.position =
            (stayInWindow
              { position := cur.position.Add new.velocity,
                velocity := new.velocity }).position) ∧
    (4 ≤ boids.length → ∃ out, updateBoidPositions sqrt boids = some out) := by
  refine ⟨?_, fun h => updateFrom_of_large sqrt _ 0 boids h⟩
  intro out h i cur hcur
  obtain ⟨hlen, _, _, hstep⟩ := updateFrom_spec sqrt boids.length 0 boids out (by omega) h
  have hi : i < boids.length := (List.getElem?_eq_some.mp hcur).1
  have hi2 : i < out.length := by omega
  have hupd : updateBoid sqrt (out.take i ++ boids.drop i) cur = some out[i] := by
    rw [hstep i cur (Nat.zero_le i) (by omega) hcur, List.getElem?_eq_getElem hi2]
  obtain ⟨neighbours, hn, hv, hp⟩ := updateBoid_some sqrt _ cur out[i] hupd
  exact ⟨neighbours, out[i], hn, List.getElem?_eq_getElem hi2, hv, hp⟩

theorem DivideChecked_of_ne (a : Vec2 α) (b : α) (hb : b ≠ 0) :
    a.DivideChecked b = some (a.Divide b) := by
  unfold Vec2.DivideChecked
  rw [if_neg hb]

theorem limitVelocityChecked_eq (sqrt : α → α) (b : Boid α) :
    limitVelocityChecked sqrt b = some (limitVelocity sqrt b) := by
  unfold limitVelocityChecked limitVelocity
  dsimp only
  by_cases h : b.velocity.Length sqrt > 5
  · have hne : b.velocity.Length sqrt ≠ 0 := by
      intro h0
      rw [h0] at h
      norm_num at h
    rw [if_pos h, if_pos h, DivideChecked_of_ne _ _ hne]
  · rw [if_neg h, if_neg h]

theorem centreOfMassRuleChecked_eq (boids : List (Boid α)) (cur : Boid α)
    (h : boids.length = 7) :
    centreOfMassRuleChecked boids cur = some (centreOfMassRule boids cur) := by
  unfold centreOfMassRuleChecked centreOfMassRule
  dsimp only
  rw [DivideChecked_of_ne _ _ (by rw [h]; norm_num)]
  dsimp only
  rw [DivideChecked_of_ne _ _ (by norm_num)]

theorem velocityRuleChecked_eq (boids : List (Boid α)) (cur : Boid α)
    (h : boids.length = 7) :
    velocityRuleChecked boids cur = some (velocityRule boids cur) := by
  unfold velocityRuleChecked velocityRule
  dsimp only
  rw [DivideChecked_of_ne _ _ (by rw [h]; norm_num)]
  dsimp only
  rw [DivideChecked_of_ne _ _ (by norm_num)]

theorem updateBoidChecked_eq (sqrt : α → α) (boids : List (Boid α)) (cur : Boid α) :
    updateBoidChecked sqrt boids cur = Outcome.ofOption (updateBoid sqrt boids cur) := by
  unfold updateBoidChecked updateBoid
  cases hn : nearestNeighbours sqrt cur boids with
  | none => rfl
  | some neighbours =>
    have h7 := nearestNeighbours_some_length sqrt cur boids neighbours hn
    dsimp only
    rw [centreOfMassRuleChecked_eq neighbours cur h7]
    dsimp only
    rw [velocityRuleChecked_eq neighbours cur h7]
    dsimp only
    rw [limitVelocityChecked_eq]
    rfl

end SingleUpdate

section SingleUpdateReal

/-- C17: no division of a tick has a zero divisor.  `limitVelocity` divides by
the length of the velocity only when that length is greater than 5, so a zero
velocity is left as it is; the list returned by `nearestNeighbours` has 7
entries, and `centreOfMassRule` and `velocityRule` divide by that count (and by
100 and 20); hence the loop body with every division checked never ends in a
division by zero, it ends as the loop body does. -/
theorem no_division_by_zero :
    (∀ b : Boid ℝ, limitVelocityChecked Real.sqrt b = some (limitVelocity Real.sqrt b)) ∧
    (∀ b : Boid ℝ, limitVelocity Real.sqrt b ≠ b → 5 < b.velocity.Length Real.sqrt) ∧
    (∀ b : Boid ℝ, b.velocity = { X := 0, Y := 0 } → limitVelocity Real.sqrt b = b) ∧
    (∀ (cur : Boid ℝ) (boids neighbours : List (Boid ℝ)) (target : Boid ℝ),
      nearestNeighbours Real.sqrt cur boids = some neighbours →
        ((neighbours.length : ℕ) : ℝ) = 7 ∧
        centreOfMassRuleChecked neighbours target = some (centreOfMassRule neighbours target) ∧
        velocityRuleChecked neighbours target = some (velocityRule neighbours target)) ∧
    (∀ (boids : List (Boid ℝ)) (cur : Boid ℝ),
      updateBoidChecked Real.sqrt boids cur ≠ Outcome.divisionByZero ∧
      updateBoidChecked Real.sqrt boids cur =
        Outcome.ofOption (updateBoid Real.sqrt boids cur)) := by
  refine ⟨limitVelocityChecked_eq Real.sqrt, ?_, ?_, ?_, ?_⟩
  · intro b hb
    by_contra hle
    exact hb (limitVelocity_of_le b (not_lt.mp hle))
  · intro b hb
    apply limitVelocity_of_le
    rw [Length_eq_sqrt, hb]
    norm_num
  · intro cur boids neighbours target hn
    have h7 := nearestNeighbours_some_length Real.sqrt cur boids neighbours hn
    refine ⟨by rw [h7]; norm_num, centreOfMassRuleChecked_eq neighbours target h7,
      velocityRuleChecked_eq neighbours target h7⟩
  · intro boids cur
    have h := updateBoidChecked_eq Real.sqrt boids cur
    refine ⟨?_, h⟩
    rw [h]
    cases updateBoid Real.sqrt boids cur <;> simp [Outcome.ofOption]

end SingleUpdateReal

/-! ## The zero boids in the sorted slice -/

section Padding

variable {α : Type} [LinearOrderedField α]

theorem insertStable_eq_takeWhile {β : Type} (less : β → β → Bool) (x : β) (l : List β) :
    insertStable less x l =
      l.takeWhile (fun y => less y x) ++ x :: l.dropWhile (fun y => less y x) := by
  induction l with
  | nil => rfl
  | cons y ys ih =>
    unfold insertStable
    by_cases h : less y x = true
    · rw [if_pos h, List.takeWhile_cons, List.dropWhile_cons, ih]
      simp [h]
    · rw [if_neg h, List.takeWhile_cons, List.dropWhile_cons]
      simp [h]

theorem length_takeWhile_le_countP {β : Type} (p : β → Bool) (l : List β) :
    (l.takeWhile p).length ≤ l.countP p := by
  induction l with
  | nil => simp
  | cons y ys ih =>
    rw [List.takeWhile_cons]
    by_cases h : p y = true
    · rw [if_pos h, List.length_cons, List.countP_cons, if_pos h]
      omega
    · rw [if_neg h]
      simp

theorem mem_take_insertStable {β : Type} (less : β → β → Bool) (x : β) (l : List β) (n : Nat)
    (h : l.countP (fun y => less y x) < n) : x ∈ (insertStable less x l).take n := by
  rw [insertStable_eq_takeWhile, List.take_append_eq_append_take]
  apply List.mem_append_right
  have hk := length_takeWhile_le_countP (fun y => less y x) l
  obtain ⟨m, hm⟩ : ∃ m, n - (l.takeWhile (fun y => less y x)).length = m + 1 :=
    ⟨n - (l.takeWhile (fun y => less y x)).length - 1, by omega⟩
  rw [hm, List.take_succ_cons]
  exact List.mem_cons_self _ _

theorem closerTo_irrefl (sqrt : α → α) (target x : Boid α) :
    closerTo sqrt target x x = false := by
  unfold closerTo
  simp

/-- C19: the slice that `nearestNeighbours` sorts has `2N` entries, `N` zero
boids followed by the `N` boids of the population.  On a population of at least
4 boids, when fewer than 7 of its boids are strictly closer to the target than
the origin `(0, 0)` is, the returned list contains a boid with position `(0, 0)`
and velocity `(0, 0)`. -/
theorem nearestNeighbours_contains_zero (sqrt : α → α) (target : Boid α)
    (pop : List (Boid α)) :
    nearestNeighbours sqrt target pop =
      sliceTo (sliceStable (closerTo sqrt target)
        (List.replicate pop.length Boid.zero ++ pop)) numNeighbours ∧
    (List.replicate pop.length (Boid.zero : Boid α) ++ pop).length = 2 * pop.length ∧
    (4 ≤ pop.length →
      (pop.filter (fun b => decide (target.position.Dist sqrt b.position
        < target.position.Dist sqrt { X := 0, Y := 0 }))).length < 7 →
      ∃ l, nearestNeighbours sqrt target pop = some l ∧
        ∃ b ∈ l, b.position = { X := 0, Y := 0 } ∧ b.velocity = { X := 0, Y := 0 }) := by
  refine ⟨nearestNeighbours_eq sqrt target pop, ?_, ?_⟩
  · rw [List.length_append, List.length_replicate]
    omega
  · intro h4 hfew
    refine ⟨_, nearestNeighbours_of_large sqrt target pop h4, Boid.zero, ?_, rfl, rfl⟩
    obtain ⟨m, hm⟩ : ∃ m, pop.length = m + 1 := ⟨pop.length - 1, by omega⟩
    rw [hm, List.replicate_succ, List.cons_append, sliceStable_cons]
    apply mem_take_insertStable
    rw [(sliceStable_perm _ _).countP_eq, List.countP_append, List.countP_replicate,
      closerTo_irrefl, List.countP_eq_length_filter]
    simpa [numNeighbours, closerTo, Boid.zero] using hfew

/-- C19 (witness): for the second boid of `tiePop` the four boids of the
population are closer than the origin, and the list returned holds a zero boid. -/
theorem nearestNeighbours_contains_zero_witness :
    4 ≤ tiePop.length ∧
    (tiePop.filter (fun b => decide (tieSecond.position.Dist Real.sqrt b.position
        < tieSecond.position.Dist Real.sqrt { X := 0, Y := 0 }))).length < 7 ∧
    ∃ l, nearestNeighbours Real.sqrt tieSecond tiePop = some l ∧
      ∃ b ∈ l, b.position = { X := 0, Y := 0 } ∧ b.velocity = { X := 0, Y := 0 } := by
  have hfew : (tiePop.filter (fun b => decide (tieSecond.position.Dist Real.sqrt b.position
        < tieSecond.position.Dist Real.sqrt { X := 0, Y := 0 }))).length < 7 :=
    lt_of_le_of_lt (List.length_filter_le _ _) (by decide)
  exact ⟨by decide, hfew,
    (nearestNeighbours_contains_zero Real.sqrt tieSecond tiePop).2.2 (by decide) hfew⟩

end Padding

/-! ## The position invariant of the tick -/

section Invariant

theorem abs_X_le_Length (v : Vec2 ℝ) : |v.X| ≤ v.Length Real.sqrt := by
  rw [Length_eq_sqrt]
  apply Real.abs_le_sqrt
  nlinarith [mul_self_nonneg v.Y]

theorem abs_Y_le_Length (v : Vec2 ℝ) : |v.Y| ≤ v.Length Real.sqrt := by
  rw [Length_eq_sqrt]
  apply Real.abs_le_sqrt
  nlinarith [mul_self_nonneg v.X]

theorem updateBoid_withinMargin (boids : List (Boid ℝ)) (cur new : Boid ℝ)
    (h : updateBoid Real.sqrt boids cur = some new) (hcur : withinMargin cur) :
    withinMargin new := by
  obtain ⟨_, _, _, hp⟩ := updateBoid_some Real.sqrt boids cur new h
  have hv := updateBoid_velocity_le boids cur new h
  have hx := abs_le.mp ((abs_X_le_Length new.velocity).trans hv)
  have hy := abs_le.mp ((abs_Y_le_Length new.velocity).trans hv)
  obtain ⟨c1, c2, c3, c4⟩ := hcur
  have hW : ((windowWidth : ℕ) : ℝ) = 1280 := by simp [windowWidth]
  have hH : ((windowHeight : ℕ) : ℝ) = 760 := by simp [windowHeight]
  have hX := congrArg Vec2.X hp
  have hY := congrArg Vec2.Y hp
  rw [stayInWindow_X, hW] at hX
  rw [stayInWindow_Y, hH] at hY
  simp only [Vec2.Add] at hX hY
  unfold withinMargin
  rw [hX, hY]
  refine ⟨?_, ?_, ?_, ?_⟩
  · split_ifs <;> linarith [hx.1, hx.2]
  · split_ifs <;> linarith [hx.1, hx.2]
  · split_ifs <;> linarith [hy.1, hy.2]
  · split_ifs <;> linarith [hy.1, hy.2]

theorem updateBoidPositions_keeps_margin (boids out : List (Boid ℝ))
    (h : updateBoidPositions Real.sqrt boids = some out)
    (hpos : ∀ b ∈ boids, withinMargin b) :
    out.length = boids.length ∧ ∀ b ∈ out, withinMargin b := by
  obtain ⟨hlen, _, _, hstep⟩ :=
    updateFrom_spec Real.sqrt boids.length 0 boids out (by omega) h
  refine ⟨hlen, ?_⟩
  intro b hb
  obtain ⟨i, hi⟩ := List.mem_iff_getElem?.mp hb
  have hi2 : i < out.length := (List.getElem?_eq_some.mp hi).1
  have hi3 : i < boids.length := by omega
  have hupd := hstep i boids[i] (Nat.zero_le i) (by omega) (List.getElem?_eq_getElem hi3)
  rw [hi] at hupd
  exact updateBoid_withinMargin _ _ _ hupd (hpos _ (List.getElem_mem hi3))

theorem runTicks_keeps_margin (n : Nat) (boids : List (Boid ℝ)) (h4 : 4 ≤ boids.length)
    (hpos : ∀ b ∈ boids, withinMargin b) :
    ∃ out, runTicks Real.sqrt n boids = some out ∧ out.length = boids.length ∧
      ∀ b ∈ out, withinMargin b := by
  induction n generalizing boids with
  | zero => exact ⟨boids, rfl, rfl, hpos⟩
  | succ n ih =>
    obtain ⟨mid, hmid⟩ := updateFrom_of_large Real.sqrt boids.length 0 boids h4
    obtain ⟨hlen, hmargin⟩ := updateBoidPositions_keeps_margin boids mid hmid hpos
    obtain ⟨out, hout, hlen2, hall⟩ := ih mid (by omega) hmargin
    refine ⟨out, ?_, by omega, hall⟩
    unfold runTicks
    have hmid2 : updateBoidPositions Real.sqrt boids = some mid := hmid
    rw [hmid2]
    exact hout

/-- C18: on a population of at least 4 boids whose positions all satisfy
`-5 ≤ X ≤ 1280` and `-5 ≤ Y ≤ 760`, whatever the velocities, the tick completes
and the positions of the resulting population satisfy the same bounds; hence so
do the positions after any number of ticks. -/
theorem updateBoidPositions_withinMargin (boids : List (Boid ℝ)) (h4 : 4 ≤ boids.length)
    (hpos : ∀ b ∈ boids, -5 ≤ b.position.X ∧ b.position.X ≤ 1280 ∧
      -5 ≤ b.position.Y ∧ b.position.Y ≤ 760) :
    (∃ out, updateBoidPositions Real.sqrt boids = some out ∧ out.length = boids.length ∧
      ∀ b ∈ out, -5 ≤ b.position.X ∧ b.position.X ≤ 1280 ∧
        -5 ≤ b.position.Y ∧ b.position.Y ≤ 760) ∧
    (∀ n, ∃ out, runTicks Real.sqrt n boids = some out ∧ out.length = boids.length ∧
      ∀ b ∈ out, -5 ≤ b.position.X ∧ b.position.X ≤ 1280 ∧
        -5 ≤ b.position.Y ∧ b.position.Y ≤ 760) := by
  constructor
  · obtain ⟨out, hout⟩ := updateFrom_of_large Real.sqrt boids.length 0 boids h4
    obtain ⟨hlen, hall⟩ := updateBoidPositions_keeps_margin boids out hout hpos
    exact ⟨out, hout, hlen, hall⟩
  · intro n
    exact runTicks_keeps_margin n boids h4 hpos

/-- C18 (witness): the four boids of `gridPop`. -/
theorem updateBoidPositions_withinMargin_witness :
    4 ≤ gridPop.length ∧
    (∀ b ∈ gridPop, -5 ≤ b.position.X ∧ b.position.X ≤ 1280 ∧
      -5 ≤ b.position.Y ∧ b.position.Y ≤ 760) ∧
    (∃ out, updateBoidPositions Real.sqrt gridPop = some out ∧ out.length = gridPop.length ∧
      ∀ b ∈ out, -5 ≤ b.position.X ∧ b.position.X ≤ 1280 ∧
        -5 ≤ b.position.Y ∧ b.position.Y ≤ 760) ∧
    (∀ n, ∃ out, runTicks Real.sqrt n gridPop = some out ∧ out.length = gridPop.length ∧
      ∀ b ∈ out, -5 ≤ b.position.X ∧ b.position.X ≤ 1280 ∧
        -5 ≤ b.position.Y ∧ b.position.Y ≤ 760) := by
  have hpos : ∀ b ∈ gridPop, -5 ≤ b.position.X ∧ b.position.X ≤ 1280 ∧
      -5 ≤ b.position.Y ∧ b.position.Y ≤ 760 := by
    intro b hb
    simp only [gridPop, List.mem_cons, List.mem_singleton, List.not_mem_nil, or_false] at hb
    rcases hb with h | h | h | h <;> rw [h] <;>
      norm_num [gridFirst, gridSecond, gridThird, gridFourth]
  exact ⟨by decide, hpos, updateBoidPositions_withinMargin gridPop (by decide) hpos⟩

end Invariant

end Boids
